import Mathlib

/-!
Verification development for the train-dispatch simulator.

The definitions below are a shallow embedding of the simulator's core
(`MinHeap`, `findPathAStar`, `isPathClear`, `dispatchTrain`, the per-tick
train update and the deadlock check).  Conventions of the embedding:

* Cell identifiers in the source are strings of the shape "x-y", produced by
  `getCellId` and parsed back by `parseCellId`; for the coordinates the
  application uses this is a bijection with coordinate pairs, so cell ids are
  modelled directly as pairs of integers.
* Numbers are modelled as rationals.  All costs appearing in the search are
  multiples of 1/2, which binary floating point represents exactly, so the
  comparisons performed by the source coincide with comparisons in ℚ.
* JavaScript `Set`/`Map` objects are modelled as lists; only membership and
  first-match lookup are ever observed.  A `Map.set` is modelled by consing
  the new binding in front (it shadows any older binding for lookups).
* The A* main loop is modelled with an explicit fuel parameter; exhausting
  the fuel yields `none`, the same observable result as search failure.
* `Math.random`/`Date.now` only influence freshly generated train ids, names
  and colors; these are taken as explicit parameters.
-/

/-- Cell identity: the source's string key "x-y" modelled as the pair (x, y). -/
abbrev CellId := Int × Int

/-- Manhattan distance between two cells, as a natural number. -/
def manhattanDist (a b : CellId) : Nat :=
  (a.1 - b.1).natAbs + (a.2 - b.2).natAbs

/-- Heuristic of the source's `getHeuristic`: Manhattan distance, in the
doubled cost units used throughout the search. -/
def getHeuristic (a b : CellId) : Int :=
  2 * (manhattanDist a b : Int)

/-- Two cells are 4-adjacent when they differ by one unit along a single axis. -/
def adjacentCells (a b : CellId) : Prop :=
  manhattanDist a b = 1

instance (a b : CellId) : Decidable (adjacentCells a b) := by
  unfold adjacentCells; infer_instance

inductive CellType where
  | empty
  | track
  | station
deriving DecidableEq, Repr

/-- A grid cell.  The source also stores the id string; it is recoverable
from the coordinates, so it is not duplicated here. -/
structure Cell where
  x : Int
  y : Int
  type : CellType
  stationName : Option String
deriving DecidableEq, Repr

/-- Identity of a cell, as derived from its coordinates. -/
def Cell.id (c : Cell) : CellId := (c.x, c.y)

/-- The grid: a finite mapping from cell ids to cells (a JS `Record`),
modelled as an association list whose first match wins. -/
abbrev Grid := List (CellId × Cell)

/-- Lookup of `currentGrid[id]`. -/
def gridLookup (g : Grid) (c : CellId) : Option Cell :=
  (g.find? (fun p => p.1 == c)).map Prod.snd

/-- A cell kind is traversable when it is track or station. -/
def CellType.isTraversable (t : CellType) : Prop :=
  t = CellType.track ∨ t = CellType.station

instance (t : CellType) : Decidable t.isTraversable := by
  unfold CellType.isTraversable; infer_instance

inductive TrainState where
  | moving
  | waiting
  | arrived
  | dwelling
deriving DecidableEq, Repr

inductive DispatchType where
  | manual
  | schedule
  | batch
deriving DecidableEq, Repr

/-- A train, with the fields of the source's `Train` interface. -/
structure Train where
  id : String
  name : String
  fromId : CellId
  toId : CellId
  path : List CellId
  currentPathIndex : Nat
  progress : ℚ
  state : TrainState
  priority : Int
  type : DispatchType
  color : String
  waitingTime : Nat
  isCyclic : Bool
  dwellRemaining : Nat
deriving DecidableEq, Repr

/-- The source's `MOVEMENT_SPEED` constant (0.15). -/
def MOVEMENT_SPEED : ℚ := 0.15

/-- The source's `RESERVATION_LOOKAHEAD` constant. -/
def RESERVATION_LOOKAHEAD : Nat := 6

/-- The optimized binary min-heap priority queue.  Items expose a total
estimated cost `f` (the constraint `T extends { f : number }` of the
source); the operations below take the projection `key` explicitly and work
for any linearly ordered key type. -/
structure MinHeap (α : Type) where
  heap : Array α
deriving Repr

/-- Parent index in the implicit binary tree, `Math.floor((i - 1) / 2)`. -/
def hparent (i : Nat) : Nat := (i - 1) / 2

theorem hparent_lt {i : Nat} (h : 0 < i) : hparent i < i :=
  Nat.lt_of_le_of_lt (Nat.div_le_self _ 2) (Nat.pred_lt (Nat.pos_iff_ne_zero.mp h))

theorem hparent_le (i : Nat) : hparent i ≤ i :=
  Nat.le_trans (Nat.div_le_self _ 2) (Nat.pred_le i)

/-- The sift-up loop of `MinHeap.push`: while the parent has a larger `f`,
swap with the parent and continue there.  The index is in bounds at every
call the source performs; the extra bound test only makes the model total.
The `fuel` argument bounds the number of iterations structurally; every call
below passes a fuel no smaller than the start index, which the loop can
never exceed, so the bound is never hit.  (Index `i` strictly decreases on
every iteration.) -/
def MinHeap.siftUpAux {α κ : Type} [LinearOrder κ] (key : α → κ) :
    Nat → Array α → Nat → Array α
  | 0, a, _ => a
  | fuel + 1, a, i =>
    if hi : 0 < i ∧ i < a.size then
      if key (a.get ⟨hparent i, Nat.lt_trans (hparent_lt hi.1) hi.2⟩) >
          key (a.get ⟨i, hi.2⟩) then
        MinHeap.siftUpAux key fuel
          (a.swap ⟨hparent i, Nat.lt_trans (hparent_lt hi.1) hi.2⟩
            ⟨i, hi.2⟩)
          (hparent i)
      else a
    else a

/-- Index of the smaller of a candidate child and the current minimum, as in
the two comparisons of the source's `siftDown`. -/
def MinHeap.pickMin {α κ : Type} [LinearOrder κ] (key : α → κ) (a : Array α)
    (cand cur : Nat) : Nat :=
  if h : cand < a.size ∧ cur < a.size then
    if key (a.get ⟨cand, h.1⟩) < key (a.get ⟨cur, h.2⟩) then cand else cur
  else cur

theorem MinHeap.pickMin_cases {α κ : Type} [LinearOrder κ] (key : α → κ)
    (a : Array α) (cand cur : Nat) :
    MinHeap.pickMin key a cand cur = cand ∨
      MinHeap.pickMin key a cand cur = cur := by
  unfold MinHeap.pickMin
  split
  · split
    · exact Or.inl rfl
    · exact Or.inr rfl
  · exact Or.inr rfl

theorem MinHeap.pickMin_lt_size {α κ : Type} [LinearOrder κ] (key : α → κ)
    (a : Array α) {cand cur : Nat} (h : cur < a.size) :
    MinHeap.pickMin key a cand cur < a.size := by
  unfold MinHeap.pickMin
  split
  · split
    · omega
    · exact h
  · exact h

/-- The recursive sift-down of `MinHeap.pop`.  As with the sift-up, `fuel`
is a structural iteration bound that is never hit when it is at least the
array size, because the index strictly increases on every iteration and
stays below the size. -/
def MinHeap.siftDownAux {α κ : Type} [LinearOrder κ] (key : α → κ) :
    Nat → Array α → Nat → Array α
  | 0, a, _ => a
  | fuel + 1, a, i =>
    if hi : i < a.size then
      if i ≠ MinHeap.pickMin key a (2 * i + 2)
          (MinHeap.pickMin key a (2 * i + 1) i) then
        MinHeap.siftDownAux key fuel
          (a.swap ⟨i, hi⟩
            ⟨MinHeap.pickMin key a (2 * i + 2)
              (MinHeap.pickMin key a (2 * i + 1) i),
              MinHeap.pickMin_lt_size key a
                (MinHeap.pickMin_lt_size key a hi)⟩)
          (MinHeap.pickMin key a (2 * i + 2)
            (MinHeap.pickMin key a (2 * i + 1) i))
      else a
    else a

/-- `push(item)`: append and sift up from the new last index. -/
def MinHeap.push {α κ : Type} [LinearOrder κ] (key : α → κ) (h : MinHeap α)
    (item : α) : MinHeap α :=
  ⟨MinHeap.siftUpAux key h.heap.size (h.heap.push item) h.heap.size⟩

/-- `pop()`: remove and return the root, moving the last element to the root
and sifting down.  Returns the remaining heap alongside the popped item. -/
def MinHeap.pop {α κ : Type} [LinearOrder κ] (key : α → κ) (h : MinHeap α) :
    Option α × MinHeap α :=
  if h0 : h.heap.size = 0 then (none, h)
  else if h1 : h.heap.size = 1 then
    (some (h.heap.get ⟨0, Nat.pos_of_ne_zero h0⟩), ⟨h.heap.pop⟩)
  else
    have hs : 0 < h.heap.size := Nat.pos_of_ne_zero h0
    have hl : h.heap.size - 1 < h.heap.size := Nat.pred_lt h0
    have hp : 0 < h.heap.pop.size := by
      rw [Array.size_pop]; omega
    (some (h.heap.get ⟨0, hs⟩),
      ⟨MinHeap.siftDownAux key h.heap.size
        ((h.heap.pop).set ⟨0, hp⟩ (h.heap.get ⟨h.heap.size - 1, hl⟩)) 0⟩)

/-- `isEmpty()`. -/
def MinHeap.isEmpty {α : Type} (h : MinHeap α) : Bool :=
  h.heap.size == 0

/-- `size()`. -/
def MinHeap.size {α : Type} (h : MinHeap α) : Nat :=
  h.heap.size

/-- The empty heap. -/
def MinHeap.empty {α : Type} : MinHeap α := ⟨#[]⟩

/-- An A* search node; the source stores the id string together with its
parsed coordinates, collapsed here into the single `pos` field.  All costs
of the search are multiples of 1/2 (base 1, surcharges 20, 1000, 2 and a
turn penalty of 0.5), so `g`, `h` and `f` are stored doubled, as exact
integers; binary floating point represents every such value exactly, hence
all comparisons the source performs agree with the integer comparisons on
the doubled values. -/
inductive AStarNode where
  | mk (pos : CellId) (g h f : Int) (parent : Option AStarNode)

def AStarNode.pos : AStarNode → CellId
  | .mk p _ _ _ _ => p

def AStarNode.g : AStarNode → Int
  | .mk _ g _ _ _ => g

def AStarNode.h : AStarNode → Int
  | .mk _ _ h _ _ => h

def AStarNode.f : AStarNode → Int
  | .mk _ _ _ f _ => f

def AStarNode.parent : AStarNode → Option AStarNode
  | .mk _ _ _ _ p => p

/-- Path reconstruction by following parent links (the source's `unshift`
loop builds the list front to back the same way). -/
def AStarNode.reconstruct : AStarNode → List CellId
  | .mk p _ _ _ none => [p]
  | .mk p _ _ _ (some par) => par.reconstruct ++ [p]

/-- The `visited` best-g map of the search (doubled cost units). -/
abbrev Visited := List (CellId × Int)

/-- `visited.get(c)` (first binding wins). -/
def Visited.find (v : Visited) (c : CellId) : Option Int :=
  (v.find? (fun p => p.1 == c)).map Prod.snd

/-- `visited.set(c, g)`: the fresh binding shadows older ones. -/
def Visited.set (v : Visited) (c : CellId) (g : Int) : Visited :=
  (c, g) :: v

/-- Neighbor offsets in the expansion order of the source. -/
def neighborOffsets : List (Int × Int) := [(0, -1), (0, 1), (-1, 0), (1, 0)]

/-- Offsets used when collecting cells adjacent to other trains. -/
def congestionOffsets : List (Int × Int) := [(0, 1), (0, -1), (1, 0), (-1, 0)]

/-- Static data of one A* invocation. -/
structure AStarEnv where
  endId : CellId
  grid : Grid
  occupiedCells : List CellId
  nearCongestionCells : List CellId
  reservedCells : List CellId
  strictMode : Bool

/-- Turn penalty: 0.5 (1 in doubled units) when the move direction differs
from the direction of the move that reached the current node. -/
def turnPenalty (cur : AStarNode) (nid : CellId) : Int :=
  match cur.parent with
  | none => 0
  | some par =>
    if nid.1 - cur.pos.1 ≠ cur.pos.1 - par.pos.1 ∨
        nid.2 - cur.pos.2 ≠ cur.pos.2 - par.pos.2 then 1 else 0

/-- Cost of stepping from the current node into the neighbor cell `nid`:
base 1, +20 if occupied by another train (goal exempt), +1000 if reserved in
non-strict mode (goal exempt), +2 near congestion, +0.5 on turning — all in
doubled units, so 2, 40, 2000, 4 and 1. -/
def moveCostOf (env : AStarEnv) (cur : AStarNode) (nid : CellId) : Int :=
  2 + (if env.occupiedCells.contains nid ∧ nid ≠ env.endId then 40 else 0)
    + (if ¬env.strictMode ∧ env.reservedCells.contains nid ∧ nid ≠ env.endId
        then 2000 else 0)
    + (if env.nearCongestionCells.contains nid then 4 else 0)
    + turnPenalty cur nid

/-- Process one neighbor offset of the popped node: skip non-traversable
cells, skip reserved cells entirely in strict mode, otherwise relax the
neighbor when the tentative g improves on the best recorded one. -/
def expandOne (env : AStarEnv) (cur : AStarNode)
    (st : MinHeap AStarNode × Visited) (off : Int × Int) :
    MinHeap AStarNode × Visited :=
  match gridLookup env.grid (cur.pos.1 + off.1, cur.pos.2 + off.2) with
  | none => st
  | some ncell =>
    if ncell.type.isTraversable then
      if env.strictMode ∧
          env.reservedCells.contains (cur.pos.1 + off.1, cur.pos.2 + off.2) ∧
          (cur.pos.1 + off.1, cur.pos.2 + off.2) ≠ env.endId then
        st
      else
        if (match st.2.find (cur.pos.1 + off.1, cur.pos.2 + off.2) with
            | none => true
            | some old =>
              decide (cur.g + moveCostOf env cur
                (cur.pos.1 + off.1, cur.pos.2 + off.2) < old)) = true then
          (MinHeap.push AStarNode.f st.1
            (AStarNode.mk (cur.pos.1 + off.1, cur.pos.2 + off.2)
              (cur.g + moveCostOf env cur (cur.pos.1 + off.1, cur.pos.2 + off.2))
              (getHeuristic (cur.pos.1 + off.1, cur.pos.2 + off.2) env.endId)
              (cur.g + moveCostOf env cur (cur.pos.1 + off.1, cur.pos.2 + off.2) +
                getHeuristic (cur.pos.1 + off.1, cur.pos.2 + off.2) env.endId)
              (some cur)),
            st.2.set (cur.pos.1 + off.1, cur.pos.2 + off.2)
              (cur.g + moveCostOf env cur (cur.pos.1 + off.1, cur.pos.2 + off.2)))
        else st
    else st

/-- The main search loop, with explicit fuel; running out of fuel aborts the
search with the same observable outcome (`none`) as exhausting the open set. -/
def astarLoop (env : AStarEnv) : Nat → MinHeap AStarNode → Visited →
    Option (List CellId)
  | 0, _, _ => none
  | fuel + 1, openSet, visited =>
    match MinHeap.pop AStarNode.f openSet with
    | (none, _) => none
    | (some current, openRest) =>
      if current.pos = env.endId then some current.reconstruct
      else
        if (match visited.find current.pos with
            | some recorded => decide (recorded < current.g)
            | none => false) = true then
          astarLoop env fuel openRest visited
        else
          astarLoop env fuel
            (neighborOffsets.foldl (expandOne env current)
              (openRest, visited)).1
            (neighborOffsets.foldl (expandOne env current)
              (openRest, visited)).2

/-- The environment `findPathAStar` builds from its arguments: cells occupied
by the other trains (those not filtered out by `ignoreTrainId`), cells
adjacent to those trains, the reservation set and the mode. -/
def astarEnvOf (endId : CellId) (currentGrid : Grid)
    (currentTrains : List Train) (ignoreTrainId : Option String)
    (reservedCells : List CellId) (strictMode : Bool) : AStarEnv :=
  ⟨endId, currentGrid,
    (currentTrains.filter (fun t => ignoreTrainId ≠ some t.id)).filterMap
      (fun t => t.path.get? t.currentPathIndex),
    (currentTrains.filter (fun t => ignoreTrainId ≠ some t.id)).foldl
      (fun acc t =>
        match t.path.get? t.currentPathIndex with
        | none => acc
        | some tPos =>
          acc ++ congestionOffsets.map
            (fun off => (tPos.1 + off.1, tPos.2 + off.2)))
      [],
    reservedCells, strictMode⟩

/-- The weighted A* search `findPathAStar` of the source. -/
def findPathAStar (fuel : Nat) (startId endId : CellId) (currentGrid : Grid)
    (currentTrains : List Train) (ignoreTrainId : Option String)
    (reservedCells : List CellId) (strictMode : Bool) :
    Option (List CellId) :=
  if (gridLookup currentGrid startId).isNone ∨
      (gridLookup currentGrid endId).isNone then none
  else
    astarLoop
      (astarEnvOf endId currentGrid currentTrains ignoreTrainId reservedCells
        strictMode)
      fuel
      (MinHeap.push AStarNode.f MinHeap.empty
        (AStarNode.mk startId 0 (getHeuristic startId endId)
          (getHeuristic startId endId) none))
      (Visited.set [] startId 0)

/-- `path.slice(a, b)` of the source (end exclusive). -/
def listSlice {α : Type} (l : List α) (a b : Nat) : List α :=
  (l.drop a).take (b - a)

/-- Insertion into a tick's reservation set (`Set.add`); only membership is
ever observed, so the set is kept as a duplicate-free list. -/
def reserveCell (c : CellId) (r : List CellId) : List CellId :=
  if r.contains c then r else c :: r

/-- The source's `isPathClear`: a segment is clear when none of its cells is
reserved, occupied by another train, or about to be entered by a moving
train. -/
def isPathClear (pathSegment : List CellId) (myTrainId : String)
    (allTrains : List Train) (reservedCells : List CellId) : Bool :=
  pathSegment.all fun cellId =>
    !(reservedCells.contains cellId) &&
    !(allTrains.any fun t =>
      t.id != myTrainId &&
      (t.path.get? t.currentPathIndex == some cellId ||
        (t.state == TrainState.moving &&
          decide (t.currentPathIndex + 1 < t.path.length) &&
          t.path.get? (t.currentPathIndex + 1) == some cellId)))

/-- Read-only data available to one train's per-tick update: the grid, the
pre-tick train snapshot (the source reads `trainsRef.current`, which does not
change during a tick), the simulation speed multiplier and the search fuel. -/
structure TickCtx where
  grid : Grid
  snapshot : List Train
  speed : ℚ
  fuel : Nat

/-- Splice a reroute onto the current path from the current index onward:
`[...path.slice(0, idx + 1), ...newRoute.slice(1)]`. -/
def splicePath (path : List CellId) (idx : Nat) (newRoute : List CellId) :
    List CellId :=
  path.take (idx + 1) ++ newRoute.drop 1

/-- The periodic soft-reroute attempt of the waiting branch: every 10 ticks
of waiting, search with reservations penalized instead of excluded, and
adopt the result unconditionally when found.  Only the path is replaced;
the already-computed lookahead window is not recomputed here. -/
def adoptSoftReroute (ctx : TickCtx) (train : Train) (res : List CellId)
    (path : List CellId) (idx : Nat) (startCell : CellId) (wt : Nat) :
    List CellId :=
  if wt % 10 = 0 then
    match findPathAStar ctx.fuel startCell train.toId ctx.grid ctx.snapshot
        (some train.id) res false with
    | some softPath =>
      if softPath.length > 0 then splicePath path idx softPath else path
    | none => path
  else path

/-- The dwelling branch of the per-tick update: count the dwell timer down;
at zero attempt the return trip with the endpoints swapped; on success become
waiting on the fresh path, otherwise retry in 10 ticks. -/
def dwellingUpdate (ctx : TickCtx) (res : List CellId) (train : Train) :
    Train × List CellId :=
  if train.dwellRemaining > 0 then
    ({ train with dwellRemaining := train.dwellRemaining - 1 }, res)
  else
    let newFrom := train.toId
    let newTo := train.fromId
    match findPathAStar ctx.fuel newFrom newTo ctx.grid ctx.snapshot
        (some train.id) [] false with
    | some returnPath =>
      if returnPath.length > 0 then
        ({ train with
           fromId := newFrom
           toId := newTo
           path := returnPath
           currentPathIndex := 0
           progress := 0
           state := .waiting
           waitingTime := 0
           dwellRemaining := 0 }, res)
      else ({ train with dwellRemaining := 10 }, res)
    | none => ({ train with dwellRemaining := 10 }, res)

/-- The reroute decision of the waiting branch: when the lookahead window is
blocked, first try a strict reroute (reserved cells hard-excluded); on
success splice it in and recompute the window; otherwise attempt the
periodic soft reroute, which replaces the path but deliberately leaves the
already-computed window untouched.  Returns the (possibly new) path and the
window to check. -/
def rerouteStep (ctx : TickCtx) (res : List CellId) (train : Train)
    (path : List CellId) (currentPathIndex waitingTime : Nat)
    (currentCellId : CellId) (segmentToReserve : List CellId)
    (blocked : Bool) : List CellId × List CellId :=
  if blocked then
    let startCell := path.getD currentPathIndex currentCellId
    match findPathAStar ctx.fuel startCell train.toId ctx.grid
        ctx.snapshot (some train.id) res true with
    | some strictPath =>
      if strictPath.length > 0 then
        let path2 := splicePath path currentPathIndex strictPath
        let newEnd :=
          min path2.length (currentPathIndex + RESERVATION_LOOKAHEAD)
        (path2, listSlice path2 (currentPathIndex + 1) newEnd)
      else
        (adoptSoftReroute ctx train res path currentPathIndex startCell
          waitingTime, segmentToReserve)
    | none =>
      (adoptSoftReroute ctx train res path currentPathIndex startCell
        waitingTime, segmentToReserve)
  else (path, segmentToReserve)

/-- The waiting branch of the per-tick update, entered with the local
variables of the source's map body (`currentCellId` was read at the index
the train had before any movement advance of this same tick). -/
def waitingUpdate (ctx : TickCtx) (res : List CellId) (train : Train)
    (currentCellId : CellId) (progress : ℚ) (currentPathIndex : Nat)
    (waitingTime : Nat) : Train × List CellId :=
  let path := train.path
  if currentPathIndex ≥ path.length - 1 then
    ({ train with
       state := .arrived
       progress := 0
       currentPathIndex := currentPathIndex
       waitingTime := 0 }, res)
  else
    let segmentEndIdx :=
      min path.length (currentPathIndex + RESERVATION_LOOKAHEAD)
    let segmentToReserve := listSlice path (currentPathIndex + 1) segmentEndIdx
    let blocked := !(isPathClear segmentToReserve train.id ctx.snapshot res)
    let rerouted := rerouteStep ctx res train path currentPathIndex
      waitingTime currentCellId segmentToReserve blocked
    if isPathClear rerouted.2 train.id ctx.snapshot res then
      ({ train with
         currentPathIndex := currentPathIndex
         progress := progress
         state := .moving
         path := rerouted.1
         waitingTime := 0 },
        rerouted.2.foldl (fun r c => reserveCell c r) res)
    else
      ({ train with
         currentPathIndex := currentPathIndex
         progress := progress
         state := .waiting
         path := rerouted.1
         waitingTime := waitingTime + 1 },
        reserveCell currentCellId res)

/-- The branch for a train that is still moving after its advance: it keeps
holding its lookahead window in the reservation set. -/
def movingReserve (ctx : TickCtx) (res : List CellId) (train : Train)
    (progress : ℚ) (currentPathIndex : Nat) (waitingTime : Nat) :
    Train × List CellId :=
  let path := train.path
  let segmentEndIdx :=
    min path.length (currentPathIndex + RESERVATION_LOOKAHEAD)
  let segmentToKeep := listSlice path (currentPathIndex + 1) segmentEndIdx
  ({ train with
     currentPathIndex := currentPathIndex
     progress := progress
     state := .moving
     path := path
     waitingTime := waitingTime },
    segmentToKeep.foldl (fun r c => reserveCell c r) res)

/-- One train's update inside the tick's `activeTrains.map(...)` body,
threading the tick's reservation set through.  The movement advance computes
the same local variables as the source's destructuring plus in-place
mutation. -/
def updateTrain (ctx : TickCtx) (res : List CellId) (train : Train) :
    Train × List CellId :=
  if train.state = .dwelling then dwellingUpdate ctx res train
  else if train.state = .arrived then
    if train.isCyclic then
      ({ train with state := .dwelling, dwellRemaining := 30 }, res)
    else (train, res)
  else
    match train.path.get? train.currentPathIndex with
    | none => ({ train with state := .arrived }, res)
    | some currentCellId =>
      let advance : ℚ × Nat × TrainState × Nat :=
        if train.state = .moving then
          let p := train.progress + MOVEMENT_SPEED * ctx.speed
          if p ≥ 1 then (0, train.currentPathIndex + 1, .waiting, 0)
          else (p, train.currentPathIndex, .moving, 0)
        else (train.progress, train.currentPathIndex, train.state,
          train.waitingTime)
      let progress := advance.1
      let currentPathIndex := advance.2.1
      let state := advance.2.2.1
      let waitingTime := advance.2.2.2
      if state = .waiting then
        waitingUpdate ctx res train currentCellId progress currentPathIndex
          waitingTime
      else if state = .moving then
        movingReserve ctx res train progress currentPathIndex waitingTime
      else
        ({ train with
           currentPathIndex := currentPathIndex
           progress := progress
           state := state
           path := train.path
           waitingTime := waitingTime }, res)

/-- The deadlock check run on the post-update active train set. -/
def deadlockWarning (runningTrains : List Train) : Bool :=
  decide (runningTrains.length > 1) &&
    runningTrains.all (fun t =>
      t.state == TrainState.waiting && decide (t.waitingTime > 20))

/-- Stable insertion of a train into a list sorted by descending priority:
it goes in front of the first strictly lower-priority train, behind equal
priorities, matching the stable `sort((a, b) => b.priority - a.priority)`. -/
def insertByPriority (t : Train) : List Train → List Train
  | [] => [t]
  | x :: xs =>
    if x.priority > t.priority then x :: insertByPriority t xs
    else t :: x :: xs

/-- Stable sort of the active trains by descending priority. -/
def sortByPriorityDesc : List Train → List Train
  | [] => []
  | x :: xs => insertByPriority x (sortByPriorityDesc xs)

structure HistoryItem where
  id : String
  time : Nat
  fromName : String
  toName : String
  priority : Int
  type : DispatchType
  isCyclic : Bool
deriving DecidableEq, Repr

structure ScheduleItem where
  id : String
  time : Nat
  fromName : String
  toName : String
  priority : Int
  dispatched : Bool
deriving DecidableEq, Repr

structure BatchItem where
  fromName : String
  toName : String
  dispatchAt : Nat
  priority : Int
  isCyclic : Bool
deriving DecidableEq, Repr

def trainNamePrefix : DispatchType → String
  | .manual => "临"
  | .batch => "批"
  | .schedule => "T"

/-- Core of the source's `dispatchTrain`: validate the request, search an
initial path, and produce the new train and its history entry, or `none`
(with no further effect) when validation or the search fails.  The randomly
generated train id, history id and color are explicit parameters. -/
def dispatchTrain (grid : Grid) (currentTrains : List Train) (now : Nat)
    (fromName toName : String) (priority : Int) (dispatchType : DispatchType)
    (isCyclic : Bool) (trainId histId color : String) (fuel : Nat) :
    Option (Train × HistoryItem) :=
  if fromName = toName then none
  else
    let stationsList := (grid.map Prod.snd).filter
      (fun c => c.type == CellType.station)
    match stationsList.find? (fun s => s.stationName == some fromName),
        stationsList.find? (fun s => s.stationName == some toName) with
    | some fromC, some toC =>
      match findPathAStar fuel fromC.id toC.id grid currentTrains none []
          false with
      | some path =>
        some ({ id := trainId
                name := trainNamePrefix dispatchType ++ "-" ++
                  trainId.takeRight 4
                fromId := fromC.id
                toId := toC.id
                path := path
                currentPathIndex := 0
                progress := 0
                state := .waiting
                priority := priority
                type := dispatchType
                color := color
                waitingTime := 0
                isCyclic := isCyclic
                dwellRemaining := 0 },
              { id := histId
                time := now
                fromName := fromName
                toName := toName
                priority := priority
                type := dispatchType
                isCyclic := isCyclic })
      | none => none
    | _, _ => none

/-- Whole-simulation state mirrored from the component's React state. -/
structure SimState where
  grid : Grid
  trains : List Train
  time : Nat
  schedule : List ScheduleItem
  history : List HistoryItem
  batchQueue : List BatchItem
  globalDeadlockWarning : Bool
deriving Repr

/-- A pending dispatch request as consumed inside the tick. -/
structure DispatchReq where
  fromName : String
  toName : String
  priority : Int
  dtype : DispatchType
  isCyclic : Bool
deriving DecidableEq, Repr

/-- Run the due dispatch requests of one tick.  Each successful dispatch
prepends its history entry.  The trains created here are dropped at the end
of the tick: the handler runs under React 18 automatic batching, so the
queued functional `setTrains` appends are overwritten by the tick's final
`setTrains(runningTrains)` value update.  `gen k` supplies the generated
(train id, history id, color) of the k-th dispatch attempt of the tick. -/
def runDispatches (grid : Grid) (snapshot : List Train) (now : Nat)
    (fuel : Nat) (gen : Nat → String × String × String) :
    List DispatchReq → Nat → List HistoryItem → List HistoryItem × Nat
  | [], k, hist => (hist, k)
  | r :: rs, k, hist =>
    let ids := gen k
    match dispatchTrain grid snapshot now r.fromName r.toName r.priority
        r.dtype r.isCyclic ids.1 ids.2.1 ids.2.2 fuel with
    | some (_, hi) =>
      runDispatches grid snapshot now fuel gen rs (k + 1) (hi :: hist)
    | none => runDispatches grid snapshot now fuel gen rs (k + 1) hist

/-- One tick of the simulation loop: advance the clock, fire due batch and
schedule dispatches, update every train in descending-priority order while
threading the tick's reservation set, drop completed non-cyclic trains, and
recompute the deadlock warning from the resulting active set. -/
def tick (speed : ℚ) (fuel : Nat) (gen : Nat → String × String × String)
    (s : SimState) : SimState :=
  let currentTime := s.time + 1
  let batchGo := s.batchQueue.filter (fun b => decide (b.dispatchAt ≤ currentTime))
  let batchStay := s.batchQueue.filter
    (fun b => decide (b.dispatchAt > currentTime))
  let batchReqs := batchGo.map
    (fun b => DispatchReq.mk b.fromName b.toName b.priority .batch b.isCyclic)
  let afterBatch := runDispatches s.grid s.trains currentTime fuel gen
    batchReqs 0 s.history
  let schedDue := s.schedule.filter
    (fun item => !item.dispatched && decide (item.time ≤ currentTime))
  let schedReqs := schedDue.map
    (fun item => DispatchReq.mk item.fromName item.toName item.priority
      .schedule false)
  let afterSched := runDispatches s.grid s.trains currentTime fuel gen
    schedReqs afterBatch.2 afterBatch.1
  let schedule2 := s.schedule.map (fun item =>
    if !item.dispatched && decide (item.time ≤ currentTime) then
      { item with dispatched := true }
    else item)
  let activeTrains := sortByPriorityDesc s.trains
  let upd := activeTrains.foldl (fun acc t =>
      let r := updateTrain ⟨s.grid, s.trains, speed, fuel⟩ acc.2 t
      (acc.1 ++ [r.1], r.2)) (([] : List Train), ([] : List CellId))
  let runningTrains := upd.1.filter
    (fun t => !(t.state == TrainState.arrived) || t.isCyclic)
  { s with
    time := currentTime
    schedule := schedule2
    batchQueue := batchStay
    history := afterSched.1
    trains := runningTrains
    globalDeadlockWarning := deadlockWarning runningTrains }

/-- A manual dispatch issued from the form: it runs outside the tick, so a
created train is appended to the train list and the history entry is
prepended; a failed dispatch leaves the state unchanged and produces no
other observable effect. -/
def applyManualDispatch (s : SimState) (fromName toName : String)
    (priority : Int) (isCyclic : Bool) (trainId histId color : String)
    (fuel : Nat) : SimState :=
  match dispatchTrain s.grid s.trains s.time fromName toName priority .manual
      isCyclic trainId histId color fuel with
  | some (tr, hi) =>
    { s with trains := s.trains ++ [tr], history := hi :: s.history }
  | none => s

/-! Concrete grids and trains used to instantiate the theorems below. -/

/-- Plain track cell at the given coordinates. -/
def trackCellAt (x y : Int) : CellId × Cell := ((x, y), ⟨x, y, CellType.track, none⟩)

/-- Station cell at the given coordinates. -/
def stationCellAt (x y : Int) (n : String) : CellId × Cell :=
  ((x, y), ⟨x, y, CellType.station, some n⟩)

/-- A 3-cell corridor along the x-axis. -/
def corridorGrid : Grid := [trackCellAt 0 0, trackCellAt 1 0, trackCellAt 2 0]

/-- The corridor together with a detached straight track far away. -/
def twoLineGrid : Grid :=
  [trackCellAt 0 0, trackCellAt 1 0, trackCellAt 2 0,
   trackCellAt 10 10, trackCellAt 11 10, trackCellAt 12 10, trackCellAt 13 10]

/-- A U-shaped all-traversable grid: the only route between its tips is a
detour of length 5 although their Manhattan distance is 2. -/
def uShapedGrid : Grid :=
  [trackCellAt 0 0, trackCellAt 0 1, trackCellAt 1 1, trackCellAt 2 1,
   trackCellAt 2 0]

/-- Two traversable cells with no connection at all. -/
def islandGrid : Grid := [trackCellAt 0 0, trackCellAt 5 5]

/-- Two named stations with no connecting track: cell (0,0) is station "A",
cell (5,5) is station "B", and nothing joins them. -/
def disconnectedStationsGrid : Grid :=
  [stationCellAt 0 0 "A", stationCellAt 5 5 "B"]

/-- A parked train occupying the middle corridor cell. -/
def exTrainB : Train :=
  { id := "B", name := "B", fromId := (1, 0), toId := (1, 0), path := [(1, 0)],
    currentPathIndex := 0, progress := 0, state := .waiting, priority := 9,
    type := .manual, color := "c1", waitingTime := 0, isCyclic := false,
    dwellRemaining := 0 }

/-- A waiting train at the corridor entrance heading for its far end. -/
def exTrainA : Train :=
  { id := "A", name := "A", fromId := (0, 0), toId := (2, 0),
    path := [(0, 0), (1, 0), (2, 0)], currentPathIndex := 0, progress := 0,
    state := .waiting, priority := 5, type := .manual, color := "c2",
    waitingTime := 0, isCyclic := false, dwellRemaining := 0 }

/-- A moving train at the last index of a single-cell path. -/
def exTrainLastMoving : Train :=
  { id := "X", name := "X", fromId := (0, 0), toId := (0, 0), path := [(0, 0)],
    currentPathIndex := 0, progress := 0.9, state := .moving, priority := 1,
    type := .manual, color := "c3", waitingTime := 3, isCyclic := false,
    dwellRemaining := 0 }

/-- A cyclic train dwelling at its destination with the countdown elapsed. -/
def exTrainCyclic : Train :=
  { id := "C", name := "C", fromId := (0, 0), toId := (2, 0),
    path := [(0, 0), (1, 0), (2, 0)], currentPathIndex := 2, progress := 0,
    state := .dwelling, priority := 5, type := .manual, color := "c4",
    waitingTime := 0, isCyclic := true, dwellRemaining := 0 }

/-- A waiting train stuck for over 20 ticks (first of two). -/
def exStuck1 : Train :=
  { id := "S1", name := "S1", fromId := (0, 0), toId := (2, 0),
    path := [(0, 0), (1, 0), (2, 0)], currentPathIndex := 0, progress := 0,
    state := .waiting, priority := 5, type := .manual, color := "c5",
    waitingTime := 25, isCyclic := false, dwellRemaining := 0 }

/-- A waiting train stuck for over 20 ticks (second of two), parked at the
other end of the corridor and heading back. -/
def exStuck2 : Train :=
  { id := "S2", name := "S2", fromId := (2, 0), toId := (0, 0),
    path := [(2, 0), (1, 0), (0, 0)], currentPathIndex := 0, progress := 0,
    state := .waiting, priority := 4, type := .manual, color := "c6",
    waitingTime := 25, isCyclic := false, dwellRemaining := 0 }

/-- A cyclic train dwelling on the detached line, away from the stuck
corridor; during the next tick it merely counts its dwell timer down. -/
def exDweller : Train :=
  { id := "M", name := "M", fromId := (10, 10), toId := (12, 10),
    path := [(10, 10), (11, 10), (12, 10)], currentPathIndex := 2,
    progress := 0, state := .dwelling, priority := 9, type := .manual,
    color := "c7", waitingTime := 0, isCyclic := true, dwellRemaining := 5 }

/-- Simulation state used for the deadlock-warning counterexample: two
over-threshold waiting trains plus one train that keeps moving. -/
def exDeadlockState : SimState :=
  { grid := twoLineGrid, trains := [exStuck1, exStuck2, exDweller], time := 0,
    schedule := [], history := [], batchQueue := [],
    globalDeadlockWarning := false }

/-- Fixed id/color supply used wherever a tick needs one. -/
def exGen : Nat → String × String × String := fun _ => ("tid", "hid", "col")

/-- C3: the post-tick deadlock warning is true iff there is more than one
active train and every active train is waiting with waitingTime strictly
greater than 20; the tick recomputes it fresh from the post-tick active set,
with no dependence on the previous warning value. -/
theorem deadlockWarning_characterization :
    (∀ ts : List Train, deadlockWarning ts = true ↔
      (1 < ts.length ∧ ∀ t ∈ ts,
        t.state = TrainState.waiting ∧ 20 < t.waitingTime)) ∧
    (∀ (speed : ℚ) (fuel : Nat) (gen : Nat → String × String × String)
      (s : SimState),
      (tick speed fuel gen s).globalDeadlockWarning =
        deadlockWarning (tick speed fuel gen s).trains) := by
  refine ⟨fun ts => ?_, fun speed fuel gen s => rfl⟩
  simp [deadlockWarning, List.all_eq_true]

/-- Witness for C3 at a concrete active set of two over-threshold waiting
trains. -/
theorem deadlockWarning_characterization_witness :
    deadlockWarning [exStuck1, exStuck2] = true :=
  (deadlockWarning_characterization.1 [exStuck1, exStuck2]).mpr (by decide)

/-- Counterexample to C4 as stated: after this tick the active set has two
waiting trains with waitingTime greater than 20, yet the warning is false,
because a third active train is still moving. -/
theorem deadlockWarning_two_of_three_counterexample :
    2 ≤ ((tick 1 100 exGen exDeadlockState).trains.filter
      (fun t => t.state == TrainState.waiting &&
        decide (20 < t.waitingTime))).length ∧
    (tick 1 100 exGen exDeadlockState).globalDeadlockWarning = false := by
  constructor
  · decide
  · decide

/-- C4 (amended): the warning is true exactly when the active set has at
least two trains and every active train is waiting with waitingTime greater
than 20; it is false whenever any single active train is not waiting. -/
theorem deadlockWarning_needs_every_train_waiting :
    ∀ ts : List Train,
      (deadlockWarning ts = true ↔
        (2 ≤ ts.length ∧ ∀ t ∈ ts,
          t.state = TrainState.waiting ∧ 20 < t.waitingTime)) ∧
      (∀ t ∈ ts, t.state ≠ TrainState.waiting → deadlockWarning ts = false) := by
  intro ts
  have hiff : deadlockWarning ts = true ↔
      (2 ≤ ts.length ∧ ∀ t ∈ ts,
        t.state = TrainState.waiting ∧ 20 < t.waitingTime) := by
    simp [deadlockWarning, List.all_eq_true]
    intro _
    omega
  refine ⟨hiff, fun t ht hst => ?_⟩
  cases hdw : deadlockWarning ts with
  | false => rfl
  | true => exact absurd ((hiff.mp hdw).2 t ht).1 hst

/-- Witness for the amended C4: one non-waiting train forces the warning off
even with two over-threshold waiting trains present. -/
theorem deadlockWarning_needs_every_train_waiting_witness :
    deadlockWarning [exStuck1, exStuck2, exDweller] = false :=
  (deadlockWarning_needs_every_train_waiting [exStuck1, exStuck2, exDweller]).2
    exDweller (List.Mem.tail _ (List.Mem.tail _ (List.Mem.head _)))
    (by intro h; exact absurd h (by decide))


theorem splicePath_length_gt {path : List CellId} {idx : Nat}
    (r : List CellId) (h : idx + 1 ≤ path.length) :
    idx < (splicePath path idx r).length := by
  simp [splicePath]
  omega

theorem adoptSoftReroute_length_gt (ctx : TickCtx) (train : Train)
    (res : List CellId) {path : List CellId} {idx : Nat} (startCell : CellId)
    (wt : Nat) (h : idx + 1 ≤ path.length) (h2 : idx < path.length) :
    idx < (adoptSoftReroute ctx train res path idx startCell wt).length := by
  unfold adoptSoftReroute
  split
  · split
    · split
      · exact splicePath_length_gt _ h
      · exact h2
    · exact h2
  · exact h2

theorem rerouteStep_length_gt (ctx : TickCtx) (res : List CellId)
    (train : Train) {path : List CellId} {idx : Nat} (wt : Nat)
    (currentCellId : CellId) (seg : List CellId) (blocked : Bool)
    (h2 : idx < path.length) :
    idx < (rerouteStep ctx res train path idx wt currentCellId seg
      blocked).1.length := by
  have h : idx + 1 ≤ path.length := h2
  unfold rerouteStep
  split
  · dsimp only
    split
    · split
      · exact splicePath_length_gt _ h
      · exact adoptSoftReroute_length_gt ctx train res _ wt h h2
    · exact adoptSoftReroute_length_gt ctx train res _ wt h h2
  · exact h2

theorem waitingUpdate_bounds (ctx : TickCtx) (res : List CellId)
    (train : Train) (currentCellId : CellId) (progress : ℚ) (idx wt : Nat)
    (hidx : idx < train.path.length) :
    ((waitingUpdate ctx res train currentCellId progress idx wt).1.currentPathIndex <
      (waitingUpdate ctx res train currentCellId progress idx wt).1.path.length) ∧
    ((waitingUpdate ctx res train currentCellId progress idx wt).1.progress = 0 ∨
      (waitingUpdate ctx res train currentCellId progress idx wt).1.progress
        = progress) := by
  unfold waitingUpdate
  dsimp only
  split
  · exact ⟨hidx, Or.inl rfl⟩
  · split
    · exact ⟨rerouteStep_length_gt ctx res train wt currentCellId _ _ hidx,
        Or.inr rfl⟩
    · exact ⟨rerouteStep_length_gt ctx res train wt currentCellId _ _ hidx,
        Or.inr rfl⟩

theorem dwellingUpdate_bounds (ctx : TickCtx) (res : List CellId)
    (train : Train) (hidx : train.currentPathIndex < train.path.length)
    (hp0 : 0 ≤ train.progress) (hp1 : train.progress < 1) :
    ((dwellingUpdate ctx res train).1.currentPathIndex <
      (dwellingUpdate ctx res train).1.path.length) ∧
    0 ≤ (dwellingUpdate ctx res train).1.progress ∧
    (dwellingUpdate ctx res train).1.progress < 1 := by
  unfold dwellingUpdate
  split
  · exact ⟨hidx, hp0, hp1⟩
  · dsimp only
    split
    · split
      · rename_i hlen
        exact ⟨hlen, by norm_num, by norm_num⟩
      · exact ⟨hidx, hp0, hp1⟩
    · exact ⟨hidx, hp0, hp1⟩

/-- C9 (amended): the per-tick train update preserves the data-model bounds
0 ≤ currentPathIndex < path.length and 0 ≤ progress < 1, for every positive
simulation-speed multiplier, provided a moving train is not already at the
last index of its path (a condition the state machine maintains, because
only the waiting branch grants the moving state and it sends trains at the
last index to arrived instead). -/
theorem updateTrain_preserves_bounds (ctx : TickCtx) (res : List CellId)
    (train : Train) (hidx : train.currentPathIndex < train.path.length)
    (hp0 : 0 ≤ train.progress) (hp1 : train.progress < 1)
    (hspeed : 0 < ctx.speed)
    (hmov : train.state = TrainState.moving →
      train.currentPathIndex + 1 < train.path.length) :
    (updateTrain ctx res train).1.currentPathIndex <
      (updateTrain ctx res train).1.path.length ∧
    0 ≤ (updateTrain ctx res train).1.progress ∧
    (updateTrain ctx res train).1.progress < 1 := by
  have hms : (0 : ℚ) < MOVEMENT_SPEED * ctx.speed :=
    mul_pos (by norm_num [MOVEMENT_SPEED]) hspeed
  unfold updateTrain
  split
  · exact dwellingUpdate_bounds ctx res train hidx hp0 hp1
  · split
    · split
      · exact ⟨hidx, hp0, hp1⟩
      · exact ⟨hidx, hp0, hp1⟩
    · split
      · rename_i hnone
        exact absurd hidx (not_lt.mpr (List.get?_eq_none.mp hnone))
      · rename_i c hc
        dsimp only
        split
        · rename_i hmoving
          split
          · rename_i hcross
            rw [if_pos rfl]
            obtain ⟨hi, hp⟩ := waitingUpdate_bounds ctx res train c 0
              (train.currentPathIndex + 1) 0 (hmov hmoving)
            refine ⟨hi, ?_, ?_⟩ <;> rcases hp with h | h <;> rw [h] <;>
              norm_num
          · rename_i hncross
            dsimp only
            rw [if_neg (by decide), if_pos rfl]
            unfold movingReserve
            dsimp only
            refine ⟨hidx, ?_, ?_⟩
            · exact le_trans hp0 (by linarith)
            · exact lt_of_not_ge hncross
        · rename_i hnotmoving
          dsimp only
          split
          · rename_i hwaiting
            obtain ⟨hi, hp⟩ := waitingUpdate_bounds ctx res train c
              train.progress train.currentPathIndex train.waitingTime hidx
            refine ⟨hi, ?_, ?_⟩
            · rcases hp with h | h
              · rw [h]
              · rw [h]; exact hp0
            · rcases hp with h | h
              · rw [h]; norm_num
              · rw [h]; exact hp1
          · exact ⟨hidx, hp0, hp1⟩

/-- Counterexample to C9 as stated: a moving train at the last index of its
path satisfies every bound required by the claim before the tick, yet the
update leaves it with currentPathIndex equal to path.length (the moving
branch advances the index past the final cell and the waiting branch then
returns it unchanged in the arrived record). -/
theorem updateTrain_bounds_counterexample :
    exTrainLastMoving.currentPathIndex < exTrainLastMoving.path.length ∧
    0 ≤ exTrainLastMoving.progress ∧ exTrainLastMoving.progress < 1 ∧
    (updateTrain ⟨corridorGrid, [], 1, 100⟩ [] exTrainLastMoving).1.currentPathIndex =
      (updateTrain ⟨corridorGrid, [], 1, 100⟩ []
        exTrainLastMoving).1.path.length := by
  refine ⟨by decide, by norm_num [exTrainLastMoving],
    by norm_num [exTrainLastMoving], ?_⟩
  norm_num [updateTrain, exTrainLastMoving, waitingUpdate, MOVEMENT_SPEED]
  decide

/-- Witness for the amended C9 at a concrete waiting train. -/
theorem updateTrain_preserves_bounds_witness :
    (updateTrain ⟨corridorGrid, [exTrainA, exTrainB], (1 : ℚ), 100⟩ []
      exTrainA).1.currentPathIndex <
      (updateTrain ⟨corridorGrid, [exTrainA, exTrainB], (1 : ℚ), 100⟩ []
        exTrainA).1.path.length ∧
    0 ≤ (updateTrain ⟨corridorGrid, [exTrainA, exTrainB], (1 : ℚ), 100⟩ []
      exTrainA).1.progress ∧
    (updateTrain ⟨corridorGrid, [exTrainA, exTrainB], (1 : ℚ), 100⟩ []
      exTrainA).1.progress < 1 :=
  updateTrain_preserves_bounds _ [] exTrainA (by decide)
    (by norm_num [exTrainA]) (by norm_num [exTrainA]) (by norm_num)
    (fun h => absurd h (by decide))

/-- The cyclic corridor train the moment it reaches arrived. -/
def exArrivedCyclic : Train := { exTrainCyclic with state := .arrived }

/-- C8: the cyclic dwell/return cycle of the per-tick update.  An arrived
cyclic train becomes dwelling with the fixed dwell duration 30; a dwelling
train with a positive countdown merely decrements it; at zero a return path
from the current destination to the current origin is attempted, and on
success the train becomes waiting with the endpoints swapped, the fresh
path, index 0 and progress 0, while on failure it stays dwelling with the
retry delay 10. -/
theorem cyclic_dwell_cycle (ctx : TickCtx) (res : List CellId)
    (train : Train) :
    (train.state = TrainState.arrived → train.isCyclic = true →
      updateTrain ctx res train =
        ({ train with state := .dwelling, dwellRemaining := 30 }, res)) ∧
    (train.state = TrainState.dwelling → 0 < train.dwellRemaining →
      updateTrain ctx res train =
        ({ train with dwellRemaining := train.dwellRemaining - 1 }, res)) ∧
    (∀ p, train.state = TrainState.dwelling → train.dwellRemaining = 0 →
      findPathAStar ctx.fuel train.toId train.fromId ctx.grid ctx.snapshot
        (some train.id) [] false = some p → p ≠ [] →
      updateTrain ctx res train =
        ({ train with
           fromId := train.toId
           toId := train.fromId
           path := p
           currentPathIndex := 0
           progress := 0
           state := .waiting
           waitingTime := 0
           dwellRemaining := 0 }, res)) ∧
    (train.state = TrainState.dwelling → train.dwellRemaining = 0 →
      findPathAStar ctx.fuel train.toId train.fromId ctx.grid ctx.snapshot
        (some train.id) [] false = none →
      updateTrain ctx res train =
        ({ train with dwellRemaining := 10 }, res)) := by
  refine ⟨fun h1 h2 => ?_, fun h1 h2 => ?_, fun p h1 h2 h3 h4 => ?_,
    fun h1 h2 h3 => ?_⟩
  · simp [updateTrain, h1, h2]
  · simp [updateTrain, dwellingUpdate, h1, h2, Nat.pos_iff_ne_zero.mp h2]
  · have hlen : 0 < p.length := List.length_pos.mpr h4
    simp [updateTrain, dwellingUpdate, h1, h2, h3, hlen]
  · simp [updateTrain, dwellingUpdate, h1, h2, h3]

/-- Witness for C8: the arrived-to-dwelling transition and a successful
return-trip departure, both at concrete trains on the corridor grid. -/
theorem cyclic_dwell_cycle_witness :
    (updateTrain ⟨corridorGrid, [exTrainCyclic], 1, 100⟩ [] exArrivedCyclic =
      ({ exArrivedCyclic with state := .dwelling, dwellRemaining := 30 },
        [])) ∧
    (updateTrain ⟨corridorGrid, [exTrainCyclic], 1, 100⟩ [] exTrainCyclic =
      ({ exTrainCyclic with
         fromId := exTrainCyclic.toId
         toId := exTrainCyclic.fromId
         path := [(2, 0), (1, 0), (0, 0)]
         currentPathIndex := 0
         progress := 0
         state := .waiting
         waitingTime := 0
         dwellRemaining := 0 }, [])) :=
  ⟨(cyclic_dwell_cycle ⟨corridorGrid, [exTrainCyclic], 1, 100⟩ []
      exArrivedCyclic).1 rfl rfl,
    (cyclic_dwell_cycle ⟨corridorGrid, [exTrainCyclic], 1, 100⟩ []
      exTrainCyclic).2.2.1 [(2, 0), (1, 0), (0, 0)] rfl rfl (by decide)
      (by decide)⟩

theorem waitingUpdate_soft_blocked (ctx : TickCtx) (res : List CellId)
    (train : Train) (c : CellId) (progress : ℚ) (idx wt : Nat)
    (sp : List CellId)
    (hlast : ¬(idx ≥ train.path.length - 1))
    (hblocked : isPathClear
      (listSlice train.path (idx + 1)
        (min train.path.length (idx + RESERVATION_LOOKAHEAD)))
      train.id ctx.snapshot res = false)
    (hstrict : findPathAStar ctx.fuel (train.path.getD idx c) train.toId
      ctx.grid ctx.snapshot (some train.id) res true = none)
    (hwt : wt % 10 = 0)
    (hsoft : findPathAStar ctx.fuel (train.path.getD idx c) train.toId
      ctx.grid ctx.snapshot (some train.id) res false = some sp)
    (hsp : sp ≠ []) :
    waitingUpdate ctx res train c progress idx wt =
      ({ train with
         currentPathIndex := idx
         progress := progress
         state := .waiting
         path := splicePath train.path idx sp
         waitingTime := wt + 1 },
        reserveCell c res) := by
  have hlen : 0 < sp.length := List.length_pos.mpr hsp
  simp only [List.getD_eq_getElem?_getD] at hstrict hsoft
  unfold waitingUpdate rerouteStep adoptSoftReroute
  rw [if_neg hlast]
  simp [hblocked, hstrict, hwt, hsoft, hlen]

/-- C10: a waiting train whose lookahead window is blocked, whose strict
reroute fails, and which adopts a soft reroute this tick (waitingTime is a
multiple of 10 and a soft path exists) never starts moving on the same tick:
the clearance re-check runs against the window computed from the pre-reroute
path — the soft branch deliberately does not recompute it — under the same
snapshot and reservation set, so it is still blocked.  The train keeps state
waiting, reserves only its current cell, and increments waitingTime, while
its path is replaced by the spliced soft route. -/
theorem soft_reroute_never_moves_same_tick (ctx : TickCtx)
    (res : List CellId) (train : Train) (c : CellId) (sp : List CellId)
    (hstate : train.state = TrainState.waiting)
    (hc : train.path.get? train.currentPathIndex = some c)
    (hlast : ¬(train.currentPathIndex ≥ train.path.length - 1))
    (hblocked : isPathClear
      (listSlice train.path (train.currentPathIndex + 1)
        (min train.path.length
          (train.currentPathIndex + RESERVATION_LOOKAHEAD)))
      train.id ctx.snapshot res = false)
    (hstrict : findPathAStar ctx.fuel
      (train.path.getD train.currentPathIndex c) train.toId ctx.grid
      ctx.snapshot (some train.id) res true = none)
    (hwt : train.waitingTime % 10 = 0)
    (hsoft : findPathAStar ctx.fuel
      (train.path.getD train.currentPathIndex c) train.toId ctx.grid
      ctx.snapshot (some train.id) res false = some sp)
    (hsp : sp ≠ []) :
    updateTrain ctx res train =
      ({ train with
         path := splicePath train.path train.currentPathIndex sp
         waitingTime := train.waitingTime + 1 },
        reserveCell c res) := by
  have hmain := waitingUpdate_soft_blocked ctx res train c train.progress
    train.currentPathIndex train.waitingTime sp hlast hblocked hstrict hwt
    hsoft hsp
  unfold updateTrain
  rw [hstate, if_neg (by decide), if_neg (by decide), hc]
  dsimp only
  rw [if_neg (show ¬(TrainState.waiting = TrainState.moving) from by decide)]
  exact hmain

/-- Witness for C10: on the corridor, train A's window is blocked by parked
train B and the reserved middle cell; the strict reroute finds nothing, the
soft reroute returns the corridor route, and A stays waiting with only its
own cell newly reserved. -/
theorem soft_reroute_never_moves_same_tick_witness :
    updateTrain ⟨corridorGrid, [exTrainA, exTrainB], 1, 100⟩ [(1, 0)]
      exTrainA =
      ({ exTrainA with
         path := splicePath exTrainA.path exTrainA.currentPathIndex
           [(0, 0), (1, 0), (2, 0)]
         waitingTime := exTrainA.waitingTime + 1 },
        reserveCell (0, 0) [(1, 0)]) :=
  soft_reroute_never_moves_same_tick ⟨corridorGrid, [exTrainA, exTrainB], 1, 100⟩
    [(1, 0)] exTrainA (0, 0) [(0, 0), (1, 0), (2, 0)] (by decide) (by decide)
    (by decide) (by decide) (by decide) (by decide) (by decide) (by decide)

/-- Simulation state over the disconnected two-station grid. -/
def exDisconnState : SimState :=
  { grid := disconnectedStationsGrid, trains := [], time := 0,
    schedule := [], history := [], batchQueue := [],
    globalDeadlockWarning := false }

/-- Counterexample to C5 as stated: in this source version a failed manual
dispatch is exactly as silent as a failed scheduled one.  For two distinct
existing stations with no connecting path, `dispatchTrain` returns nothing
for both request types, and the manual entry point leaves the whole
simulation state unchanged — nothing is reported to the caller. -/
theorem manual_dispatch_failure_silent_counterexample :
    dispatchTrain disconnectedStationsGrid [] 0 "A" "B" 5 DispatchType.manual
      false "tid" "hid" "col" 50 = none ∧
    dispatchTrain disconnectedStationsGrid [] 0 "A" "B" 5 DispatchType.schedule
      false "tid" "hid" "col" 50 = none ∧
    applyManualDispatch exDisconnState "A" "B" 5 false "tid" "hid" "col" 50 =
      exDisconnState := by
  refine ⟨by decide, by decide, ?_⟩
  unfold applyManualDispatch
  rw [show dispatchTrain exDisconnState.grid exDisconnState.trains
    exDisconnState.time "A" "B" 5 DispatchType.manual false "tid" "hid" "col"
    50 = none from by decide]

/-- C5 (amended): a dispatch request naming two distinct existing stations
for which no initial path exists is silently dropped for every request type,
manual included: `dispatchTrain` produces nothing, the manual entry point
leaves the state unchanged and surfaces no error, a failed request inside
the tick contributes no history entry, and a due schedule item is marked
dispatched regardless of whether its dispatch succeeded. -/
theorem dispatch_no_path_silently_dropped :
    (∀ (grid : Grid) (trains : List Train) (now : Nat)
      (fromName toName : String) (priority : Int) (dtype : DispatchType)
      (cyc : Bool) (tid hid col : String) (fuel : Nat) (fromC toC : Cell),
      fromName ≠ toName →
      ((grid.map Prod.snd).filter (fun c => c.type == CellType.station)).find?
        (fun s => s.stationName == some fromName) = some fromC →
      ((grid.map Prod.snd).filter (fun c => c.type == CellType.station)).find?
        (fun s => s.stationName == some toName) = some toC →
      findPathAStar fuel fromC.id toC.id grid trains none [] false = none →
      dispatchTrain grid trains now fromName toName priority dtype cyc tid
        hid col fuel = none) ∧
    (∀ (s : SimState) (fromName toName : String) (priority : Int)
      (cyc : Bool) (tid hid col : String) (fuel : Nat),
      dispatchTrain s.grid s.trains s.time fromName toName priority
        DispatchType.manual cyc tid hid col fuel = none →
      applyManualDispatch s fromName toName priority cyc tid hid col fuel
        = s) ∧
    (∀ (grid : Grid) (snapshot : List Train) (now fuel : Nat)
      (gen : Nat → String × String × String) (r : DispatchReq)
      (rs : List DispatchReq) (k : Nat) (hist : List HistoryItem),
      dispatchTrain grid snapshot now r.fromName r.toName r.priority r.dtype
        r.isCyclic (gen k).1 (gen k).2.1 (gen k).2.2 fuel = none →
      runDispatches grid snapshot now fuel gen (r :: rs) k hist =
        runDispatches grid snapshot now fuel gen rs (k + 1) hist) ∧
    (∀ (speed : ℚ) (fuel : Nat) (gen : Nat → String × String × String)
      (s : SimState) (item : ScheduleItem), item ∈ s.schedule →
      item.dispatched = false → item.time ≤ s.time + 1 →
      { item with dispatched := true } ∈ (tick speed fuel gen s).schedule) := by
  refine ⟨?_, ?_, ?_, ?_⟩
  · intro grid trains now fromName toName priority dtype cyc tid hid col fuel
      fromC toC hne hfrom hto hpath
    unfold dispatchTrain
    rw [if_neg hne]
    simp only [hfrom, hto, hpath]
  · intro s fromName toName priority cyc tid hid col fuel h
    unfold applyManualDispatch
    rw [h]
  · intro grid snapshot now fuel gen r rs k hist h
    unfold runDispatches
    simp only [h]
    cases rs <;> rfl
  · intro speed fuel gen s item hmem hdisp htime
    have heq : { item with dispatched := true } =
        (if !item.dispatched && decide (item.time ≤ s.time + 1) then
          { item with dispatched := true } else item) := by
      rw [if_pos]
      simp [hdisp, htime]
    rw [heq]
    exact List.mem_map_of_mem _ hmem

/-- Witness for the amended C5 on the disconnected two-station grid. -/
theorem dispatch_no_path_silently_dropped_witness :
    dispatchTrain disconnectedStationsGrid [] 7 "A" "B" 3 DispatchType.batch
      true "t0" "h0" "c0" 60 = none :=
  dispatch_no_path_silently_dropped.1 disconnectedStationsGrid [] 7 "A" "B" 3
    DispatchType.batch true "t0" "h0" "c0" 60 (stationCellAt 0 0 "A").2
    (stationCellAt 5 5 "B").2 (by decide) (by decide) (by decide) (by decide)

theorem swap_toList_perm {α : Type} (a : Array α) (i j : Fin a.size) :
    (a.swap i j).toList.Perm a.toList := by
  classical
  rw [Array.toList_swap, List.perm_iff_count]
  intro x
  have hi : (i : Nat) < a.toList.length := by
    rw [Array.length_toList]; exact i.2
  have hj : (j : Nat) < a.toList.length := by
    rw [Array.length_toList]; exact j.2
  have hj2 : (j : Nat) < (a.toList.set i (a.get j)).length := by
    rw [List.length_set]; exact hj
  have hgeti : a.get i = a.toList[(i : Nat)] := by
    rw [Array.get_eq_getElem, Array.getElem_toList]
  have hgetj : a.get j = a.toList[(j : Nat)] := by
    rw [Array.get_eq_getElem, Array.getElem_toList]
  have hset : (a.toList.set i (a.get j))[(j : Nat)] = a.toList[(j : Nat)] := by
    rw [List.getElem_set hj2]
    split
    · rw [hgetj]
    · rfl
  rw [List.count_set _ _ _ _ hj2, List.count_set _ _ _ _ hi, hset, hgeti,
    hgetj]
  have hcount : (if (a.toList[(i : Nat)] == x) = true then 1 else 0) ≤
      List.count x a.toList := by
    split
    · rename_i h
      exact List.count_pos_iff.mpr ((eq_of_beq h) ▸ List.getElem_mem hi)
    · exact Nat.zero_le _
  omega

/-- Comparison of the keys at two array positions, trivially true when either
index is out of bounds (which lets heap statements avoid bound plumbing). -/
def kle {α κ : Type} [LinearOrder κ] (key : α → κ) (a : Array α)
    (i j : Nat) : Prop :=
  ∀ (hi : i < a.size) (hj : j < a.size),
    key (a.get ⟨i, hi⟩) ≤ key (a.get ⟨j, hj⟩)

/-- The binary-heap invariant of the source's contract: every parent's `f`
is at most each of its children's `f`. -/
def HeapProp {α κ : Type} [LinearOrder κ] (key : α → κ) (a : Array α) :
    Prop :=
  ∀ j : Nat, 0 < j → kle key a (hparent j) j

theorem get_swap {α : Type} (a : Array α) (i j : Fin a.size) (k : Nat)
    (hk : k < (a.swap i j).size) (hk2 : k < a.size) :
    (a.swap i j).get ⟨k, hk⟩ =
      if k = (i : Nat) then a.get j else if k = (j : Nat) then a.get i
      else a.get ⟨k, hk2⟩ := by
  rw [Array.get_eq_getElem, Array.getElem_swap]
  split
  · simp [Array.get_eq_getElem]
  · split
    · simp [Array.get_eq_getElem]
    · simp [Array.get_eq_getElem]

theorem siftUpAux_size {α κ : Type} [LinearOrder κ] (key : α → κ) :
    ∀ (fuel : Nat) (a : Array α) (i : Nat),
      (MinHeap.siftUpAux key fuel a i).size = a.size := by
  intro fuel
  induction fuel with
  | zero => intro a i; rfl
  | succ n ih =>
    intro a i
    unfold MinHeap.siftUpAux
    split
    · split
      · rw [ih, Array.size_swap]
      · rfl
    · rfl

theorem siftUpAux_perm {α κ : Type} [LinearOrder κ] (key : α → κ) :
    ∀ (fuel : Nat) (a : Array α) (i : Nat),
      (MinHeap.siftUpAux key fuel a i).toList.Perm a.toList := by
  intro fuel
  induction fuel with
  | zero => intro a i; exact List.Perm.refl _
  | succ n ih =>
    intro a i
    unfold MinHeap.siftUpAux
    split
    · split
      · exact (ih _ _).trans (swap_toList_perm a _ _)
      · exact List.Perm.refl _
    · exact List.Perm.refl _

theorem siftDownAux_size {α κ : Type} [LinearOrder κ] (key : α → κ) :
    ∀ (fuel : Nat) (a : Array α) (i : Nat),
      (MinHeap.siftDownAux key fuel a i).size = a.size := by
  intro fuel
  induction fuel with
  | zero => intro a i; rfl
  | succ n ih =>
    intro a i
    unfold MinHeap.siftDownAux
    split
    · split
      · rw [ih, Array.size_swap]
      · rfl
    · rfl

theorem siftDownAux_perm {α κ : Type} [LinearOrder κ] (key : α → κ) :
    ∀ (fuel : Nat) (a : Array α) (i : Nat),
      (MinHeap.siftDownAux key fuel a i).toList.Perm a.toList := by
  intro fuel
  induction fuel with
  | zero => intro a i; exact List.Perm.refl _
  | succ n ih =>
    intro a i
    unfold MinHeap.siftDownAux
    split
    · split
      · exact (ih _ _).trans (swap_toList_perm a _ _)
      · exact List.Perm.refl _
    · exact List.Perm.refl _

theorem push_perm {α κ : Type} [LinearOrder κ] (key : α → κ)
    (h : MinHeap α) (x : α) :
    (MinHeap.push key h x).heap.toList.Perm (x :: h.heap.toList) := by
  unfold MinHeap.push
  exact (siftUpAux_perm key _ _ _).trans
    (by rw [Array.push_toList]; exact List.perm_append_singleton x _)

theorem heapProp_root_min {α κ : Type} [LinearOrder κ] (key : α → κ)
    (a : Array α) (hp : HeapProp key a) : ∀ j, kle key a 0 j := by
  intro j
  induction j using Nat.strong_induction_on with
  | _ j ih =>
    intro h0 hj
    rcases Nat.eq_zero_or_pos j with hj0 | hjpos
    · subst hj0; exact le_refl _
    · exact le_trans
        (ih (hparent j) (hparent_lt hjpos) h0
          (Nat.lt_of_le_of_lt (hparent_le j) hj))
        (hp j hjpos (Nat.lt_of_le_of_lt (hparent_le j) hj) hj)

theorem pop_spec {α κ : Type} [LinearOrder κ] (key : α → κ) (h : MinHeap α)
    (m : α) (h2 : MinHeap α) (hpop : MinHeap.pop key h = (some m, h2)) :
    m ∈ h.heap.toList ∧ (m :: h2.heap.toList).Perm h.heap.toList := by
  unfold MinHeap.pop at hpop
  split at hpop
  · simp at hpop
  · rename_i h0
    split at hpop
    · rename_i h1
      rw [Prod.mk.injEq] at hpop
      obtain ⟨hm, hh⟩ := hpop
      obtain rfl : _ = m := Option.some.inj hm
      have hlen : h.heap.toList.length = 1 := by
        rw [Array.length_toList]; exact h1
      obtain ⟨x, hx⟩ := List.length_eq_one.mp hlen
      have hget : h.heap.get ⟨0, Nat.pos_of_ne_zero h0⟩ =
          h.heap.toList[0] := by
        rw [Array.get_eq_getElem, Array.getElem_toList]
      have hget2 : h.heap.toList[0] = x := by
        simp [hx]
      have htl : h2.heap.toList = [] := by
        rw [← hh]
        show h.heap.pop.toList = []
        rw [Array.toList_pop, hx]
        rfl
      rw [htl, hget, hget2, hx]
      exact ⟨List.mem_singleton_self x, List.Perm.refl _⟩
    · rename_i h1
      rw [Prod.mk.injEq] at hpop
      obtain ⟨hm, hh⟩ := hpop
      obtain rfl : _ = m := Option.some.inj hm
      have hs : 0 < h.heap.size := Nat.pos_of_ne_zero h0
      have hs2 : 2 ≤ h.heap.size := by
        rcases Nat.lt_or_ge h.heap.size 2 with hlt | hge
        · exfalso
          have : h.heap.size = 0 ∨ h.heap.size = 1 := by omega
          rcases this with hc | hc
          · exact h0 hc
          · exact h1 hc
        · exact hge
      have hlenl : h.heap.toList.length = h.heap.size := Array.length_toList
      have hm0 : h.heap.get ⟨0, hs⟩ = h.heap.toList[0] := by
        rw [Array.get_eq_getElem, Array.getElem_toList]
      refine ⟨by rw [hm0]; exact List.getElem_mem _, ?_⟩
      have hperm2 : h2.heap.toList.Perm
          ((h.heap.pop).set ⟨0, by rw [Array.size_pop]; omega⟩
            (h.heap.get ⟨h.heap.size - 1, by omega⟩)).toList := by
        rw [← hh]
        exact siftDownAux_perm key _ _ _
      have ha2 : ((h.heap.pop).set ⟨0, by rw [Array.size_pop]; omega⟩
          (h.heap.get ⟨h.heap.size - 1, by omega⟩)).toList =
          h.heap.toList.dropLast.set 0
            (h.heap.get ⟨h.heap.size - 1, by omega⟩) := by
        rw [Array.toList_set, Array.toList_pop]
      have hne : h.heap.toList ≠ [] := by
        intro hcon
        rw [hcon] at hlenl
        simp at hlenl
        omega
      have hy : h.heap.get ⟨h.heap.size - 1, by omega⟩ =
          h.heap.toList.getLast hne := by
        rw [List.getLast_eq_getElem, Array.get_eq_getElem]
        rw [show h.heap.toList[h.heap.toList.length - 1] =
          h.heap.toList[h.heap.size - 1] from
          getElem_congr (by omega)]
        rw [Array.getElem_toList]
      have hdl0 : 0 < h.heap.toList.dropLast.length := by
        rw [List.length_dropLast]; omega
      have hdl0eq : h.heap.toList.dropLast[0] =
          h.heap.toList[0] :=
        List.getElem_dropLast _ 0 hdl0
      obtain ⟨dltail, hdl⟩ : ∃ t, h.heap.toList.dropLast =
          (h.heap.toList[0]) :: t := by
        refine ⟨h.heap.toList.dropLast.tail, ?_⟩
        conv_lhs => rw [← List.head_cons_tail h.heap.toList.dropLast
          (by intro hcon; rw [hcon] at hdl0; simp at hdl0)]
        rw [← List.getElem_zero hdl0, hdl0eq]
      refine (List.Perm.cons _ (hperm2.trans (by rw [ha2]))).trans ?_
      rw [hdl, List.set_cons_zero, hy]
      conv_rhs => rw [← List.dropLast_append_getLast hne, hdl]
      rw [hm0]
      exact List.Perm.cons _ (List.perm_append_singleton _ _).symm

theorem hparent_child_left (i : Nat) : hparent (2 * i + 1) = i := by
  unfold hparent; omega

theorem hparent_child_right (i : Nat) : hparent (2 * i + 2) = i := by
  unfold hparent; omega

theorem child_of_hparent {i j : Nat} (h0 : 0 < j) (h : hparent j = i) :
    j = 2 * i + 1 ∨ j = 2 * i + 2 := by
  unfold hparent at h; omega

theorem kle_trans {α κ : Type} [LinearOrder κ] (key : α → κ) (a : Array α)
    {x y z : Nat} (hy : y < a.size) (h1 : kle key a x y)
    (h2 : kle key a y z) : kle key a x z :=
  fun hi hj => le_trans (h1 hi hy) (h2 hy hj)

theorem pickMin_spec {α κ : Type} [LinearOrder κ] (key : α → κ) (a : Array α)
    (cand cur : Nat) (hcur : cur < a.size) :
    (MinHeap.pickMin key a cand cur = cand ∧ ∃ hcand : cand < a.size,
        key (a.get ⟨cand, hcand⟩) < key (a.get ⟨cur, hcur⟩)) ∨
    (MinHeap.pickMin key a cand cur = cur ∧ ∀ hcand : cand < a.size,
        key (a.get ⟨cur, hcur⟩) ≤ key (a.get ⟨cand, hcand⟩)) := by
  unfold MinHeap.pickMin
  split
  · rename_i hb
    split
    · rename_i hlt
      exact Or.inl ⟨rfl, hb.1, hlt⟩
    · rename_i hnlt
      exact Or.inr ⟨rfl, fun hc => not_lt.mp hnlt⟩
  · rename_i hb
    exact Or.inr ⟨rfl, fun hc => absurd ⟨hc, hcur⟩ hb⟩

theorem pickMin_kle_cur {α κ : Type} [LinearOrder κ] (key : α → κ)
    (a : Array α) (cand cur : Nat) (hcur : cur < a.size) :
    kle key a (MinHeap.pickMin key a cand cur) cur := by
  rcases pickMin_spec key a cand cur hcur with ⟨hm, _, hlt⟩ | ⟨hm, _⟩
  · rw [hm]; intro hi hj; exact le_of_lt hlt
  · rw [hm]; intro hi hj; exact le_refl _

theorem pickMin_kle_cand {α κ : Type} [LinearOrder κ] (key : α → κ)
    (a : Array α) (cand cur : Nat) (hcur : cur < a.size) :
    kle key a (MinHeap.pickMin key a cand cur) cand := by
  rcases pickMin_spec key a cand cur hcur with ⟨hm, _, _⟩ | ⟨hm, hle⟩
  · rw [hm]; intro hi hj; exact le_refl _
  · rw [hm]; intro hi hj; exact hle hj

/-- Where index `k` is sent by swapping positions `p` and `q`. -/
def swapIdx (p q k : Nat) : Nat :=
  if k = p then q else if k = q then p else k

theorem swapIdx_lt {n p q k : Nat} (hp : p < n) (hq : q < n) (hk : k < n) :
    swapIdx p q k < n := by
  unfold swapIdx
  split
  · exact hq
  · split
    · exact hp
    · exact hk

theorem swapIdx_left (p q k : Nat) (h : k = p) : swapIdx p q k = q := by
  unfold swapIdx; rw [if_pos h]

theorem swapIdx_right (p q k : Nat) (h1 : k ≠ p) (h2 : k = q) :
    swapIdx p q k = p := by
  unfold swapIdx; rw [if_neg h1, if_pos h2]

theorem swapIdx_other (p q k : Nat) (h1 : k ≠ p) (h2 : k ≠ q) :
    swapIdx p q k = k := by
  unfold swapIdx; rw [if_neg h1, if_neg h2]

theorem get_idx_congr {α : Type} (a : Array α) {x y : Nat} (h : x = y)
    (hx : x < a.size) : a.get ⟨x, hx⟩ = a.get ⟨y, h ▸ hx⟩ := by
  subst h; rfl

theorem get_swap_swapIdx {α : Type} (a : Array α) (p q : Fin a.size)
    (k : Nat) (hk : k < (a.swap p q).size) (hk2 : k < a.size)
    (hs : swapIdx p q k < a.size) :
    (a.swap p q).get ⟨k, hk⟩ = a.get ⟨swapIdx p q k, hs⟩ := by
  rw [get_swap a p q k hk hk2]
  by_cases h1 : k = (p : Nat)
  · rw [if_pos h1]
    exact ((get_idx_congr a (swapIdx_left p q k h1) hs).trans rfl).symm
  · rw [if_neg h1]
    by_cases h2 : k = (q : Nat)
    · rw [if_pos h2]
      exact ((get_idx_congr a (swapIdx_right p q k h1 h2) hs).trans rfl).symm
    · rw [if_neg h2]
      exact ((get_idx_congr a (swapIdx_other p q k h1 h2) hs).trans rfl).symm

theorem kle_swap_of {α κ : Type} [LinearOrder κ] (key : α → κ) (a : Array α)
    (p q : Fin a.size) (x y : Nat)
    (h : kle key a (swapIdx p q x) (swapIdx p q y)) :
    kle key (a.swap p q) x y := by
  intro hx hy
  have hx2 : x < a.size := by rw [Array.size_swap] at hx; exact hx
  have hy2 : y < a.size := by rw [Array.size_swap] at hy; exact hy
  have hsx : swapIdx p q x < a.size := swapIdx_lt p.2 q.2 hx2
  have hsy : swapIdx p q y < a.size := swapIdx_lt p.2 q.2 hy2
  rw [get_swap_swapIdx a p q x hx hx2 hsx,
    get_swap_swapIdx a p q y hy hy2 hsy]
  exact h hsx hsy

/-- Sift-up precondition: the heap property holds at every edge except the
one into index `i`, and `i`'s parent already bounds `i`'s children. -/
def UpOK {α κ : Type} [LinearOrder κ] (key : α → κ) (a : Array α)
    (i : Nat) : Prop :=
  (∀ j, 0 < j → j ≠ i → kle key a (hparent j) j) ∧
  (0 < i → ∀ j, 0 < j → hparent j = i → kle key a (hparent i) j)

theorem upok_swap {α κ : Type} [LinearOrder κ] (key : α → κ) (a : Array α)
    (i : Nat) (h0 : 0 < i) (hi : i < a.size) (hplt : hparent i < a.size)
    (hgt : key (a.get ⟨i, hi⟩) < key (a.get ⟨hparent i, hplt⟩))
    (hok : UpOK key a i) :
    UpOK key (a.swap ⟨hparent i, hplt⟩ ⟨i, hi⟩) (hparent i) := by
  have hpi : hparent i < i := hparent_lt h0
  constructor
  · intro j hj0 hjp
    apply kle_swap_of
    by_cases hji : j = i
    · rw [hji, swapIdx_left (hparent i) i (hparent i) rfl,
        swapIdx_right (hparent i) i i (by omega) rfl]
      intro ha hb
      exact le_of_lt hgt
    · rw [swapIdx_other (hparent i) i j hjp hji]
      by_cases hpji : hparent j = i
      · rw [swapIdx_right (hparent i) i (hparent j) (by omega) hpji]
        exact hok.2 h0 j hj0 hpji
      · by_cases hpjp : hparent j = hparent i
        · rw [swapIdx_left (hparent i) i (hparent j) hpjp]
          have h1 := hok.1 j hj0 hji
          rw [hpjp] at h1
          intro ha hb
          exact le_trans (le_of_lt hgt) (h1 hplt hb)
        · rw [swapIdx_other (hparent i) i (hparent j) hpjp hpji]
          exact hok.1 j hj0 hji
  · intro hp0 j hj0 hpj
    apply kle_swap_of
    have hgp : hparent (hparent i) < hparent i := hparent_lt hp0
    rw [swapIdx_other (hparent i) i (hparent (hparent i)) (by omega)
      (by omega)]
    by_cases hji : j = i
    · rw [hji, swapIdx_right (hparent i) i i (by omega) rfl]
      exact hok.1 (hparent i) hp0 (by omega)
    · have hjg : hparent i < j := hpj ▸ hparent_lt hj0
      rw [swapIdx_other (hparent i) i j (by omega) hji]
      have h1 := hok.1 (hparent i) hp0 (by omega)
      have h2 := hok.1 j hj0 hji
      rw [hpj] at h2
      exact kle_trans key a hplt h1 h2

theorem siftUpAux_heapProp {α κ : Type} [LinearOrder κ] (key : α → κ) :
    ∀ (fuel : Nat) (a : Array α) (i : Nat), i ≤ fuel → UpOK key a i →
      HeapProp key (MinHeap.siftUpAux key fuel a i) := by
  intro fuel
  induction fuel with
  | zero =>
    intro a i hf hok j hj0
    exact hok.1 j hj0 (by omega)
  | succ n ih =>
    intro a i hf hok
    unfold MinHeap.siftUpAux
    split
    · rename_i hc
      split
      · rename_i hgt
        refine ih _ _ ?_ (upok_swap key a i hc.1 hc.2 _ hgt hok)
        have := hparent_lt hc.1
        omega
      · rename_i hng
        intro j hj0
        by_cases hji : j = i
        · subst hji
          intro ha hb
          exact not_lt.mp hng
        · exact hok.1 j hj0 hji
    · rename_i hc
      intro j hj0
      by_cases hji : j = i
      · subst hji
        intro ha hb
        exact absurd ⟨hj0, hb⟩ hc
      · exact hok.1 j hj0 hji

theorem push_heapProp {α κ : Type} [LinearOrder κ] (key : α → κ)
    (h : MinHeap α) (hp : HeapProp key h.heap) (x : α) :
    HeapProp key (MinHeap.push key h x).heap := by
  unfold MinHeap.push
  apply siftUpAux_heapProp key h.heap.size (h.heap.push x) h.heap.size
    (le_refl _)
  constructor
  · intro j hj0 hjs hA hB
    have hB2 : j < h.heap.size := by
      rw [Array.size_push] at hB; omega
    have hA2 : hparent j < h.heap.size := by
      have := hparent_lt hj0; omega
    have e1 : (h.heap.push x).get ⟨hparent j, hA⟩ =
        h.heap.get ⟨hparent j, hA2⟩ := by
      rw [Array.get_eq_getElem, Array.get_eq_getElem]
      exact Array.getElem_push_lt h.heap x (hparent j) hA2
    have e2 : (h.heap.push x).get ⟨j, hB⟩ = h.heap.get ⟨j, hB2⟩ := by
      rw [Array.get_eq_getElem, Array.get_eq_getElem]
      exact Array.getElem_push_lt h.heap x j hB2
    rw [e1, e2]
    exact hp j hj0 hA2 hB2
  · intro h0 j hj0 hpj hA hB
    exfalso
    rw [Array.size_push] at hB
    have hlt := hparent_lt hj0
    omega

/-- Sift-down precondition: the heap property holds at every edge except the
ones out of index `i`, and `i`'s parent already bounds `i`'s children. -/
def DownOK {α κ : Type} [LinearOrder κ] (key : α → κ) (a : Array α)
    (i : Nat) : Prop :=
  (∀ j, 0 < j → hparent j ≠ i → kle key a (hparent j) j) ∧
  (0 < i → ∀ j, 0 < j → hparent j = i → kle key a (hparent i) j)

theorem downok_swap {α κ : Type} [LinearOrder κ] (key : α → κ) (a : Array α)
    (i m : Nat) (hi : i < a.size) (hm : m < a.size)
    (hchild : m = 2 * i + 1 ∨ m = 2 * i + 2)
    (hmi : kle key a m i) (hm1 : kle key a m (2 * i + 1))
    (hm2 : kle key a m (2 * i + 2)) (hok : DownOK key a i) :
    DownOK key (a.swap ⟨i, hi⟩ ⟨m, hm⟩) m := by
  have him : i < m := by omega
  have hpm : hparent m = i := by
    rcases hchild with h | h
    · rw [h]; exact hparent_child_left i
    · rw [h]; exact hparent_child_right i
  constructor
  · intro j hj0 hpj
    apply kle_swap_of
    by_cases hji : j = i
    · have h0i : 0 < i := hji ▸ hj0
      have hpii : hparent i < i := hparent_lt h0i
      rw [hji, swapIdx_other i m (hparent i) (by omega) (by omega),
        swapIdx_left i m i rfl]
      exact hok.2 h0i m (by omega) hpm
    · by_cases hjm : j = m
      · rw [hjm, swapIdx_left i m (hparent m) hpm,
          swapIdx_right i m m (by omega) rfl]
        exact hmi
      · by_cases hpji : hparent j = i
        · rw [swapIdx_left i m (hparent j) hpji,
            swapIdx_other i m j hji hjm]
          rcases child_of_hparent hj0 hpji with h | h
          · rw [h]; exact hm1
          · rw [h]; exact hm2
        · rw [swapIdx_other i m (hparent j) hpji hpj,
            swapIdx_other i m j hji hjm]
          exact hok.1 j hj0 hpji
  · intro hm0 j hj0 hpj
    apply kle_swap_of
    have hjgt : m < j := hpj ▸ hparent_lt hj0
    rw [swapIdx_left i m (hparent m) hpm,
      swapIdx_other i m j (by omega) (by omega)]
    have h1 := hok.1 j hj0 (by omega)
    rw [hpj] at h1
    exact h1

theorem siftDownAux_heapProp {α κ : Type} [LinearOrder κ] (key : α → κ) :
    ∀ (fuel : Nat) (a : Array α) (i : Nat), a.size ≤ fuel + i →
      DownOK key a i → HeapProp key (MinHeap.siftDownAux key fuel a i) := by
  intro fuel
  induction fuel with
  | zero =>
    intro a i hf hok
    show HeapProp key a
    intro j hj0
    by_cases hpj : hparent j = i
    · intro hA hB
      exfalso
      have := hparent_lt hj0
      omega
    · exact hok.1 j hj0 hpj
  | succ n ih =>
    intro a i hf hok
    unfold MinHeap.siftDownAux
    split
    · rename_i hi
      have hm1s : MinHeap.pickMin key a (2 * i + 1) i < a.size :=
        MinHeap.pickMin_lt_size key a hi
      have hms : MinHeap.pickMin key a (2 * i + 2)
          (MinHeap.pickMin key a (2 * i + 1) i) < a.size :=
        MinHeap.pickMin_lt_size key a hm1s
      have hkm1 : kle key a
          (MinHeap.pickMin key a (2 * i + 2)
            (MinHeap.pickMin key a (2 * i + 1) i))
          (MinHeap.pickMin key a (2 * i + 1) i) :=
        pickMin_kle_cur key a _ _ hm1s
      have hmi : kle key a
          (MinHeap.pickMin key a (2 * i + 2)
            (MinHeap.pickMin key a (2 * i + 1) i)) i :=
        kle_trans key a hm1s hkm1 (pickMin_kle_cur key a _ _ hi)
      have hc1 : kle key a
          (MinHeap.pickMin key a (2 * i + 2)
            (MinHeap.pickMin key a (2 * i + 1) i)) (2 * i + 1) :=
        kle_trans key a hm1s hkm1 (pickMin_kle_cand key a _ _ hi)
      have hc2 : kle key a
          (MinHeap.pickMin key a (2 * i + 2)
            (MinHeap.pickMin key a (2 * i + 1) i)) (2 * i + 2) :=
        pickMin_kle_cand key a _ _ hm1s
      have hcase := MinHeap.pickMin_cases key a (2 * i + 2)
        (MinHeap.pickMin key a (2 * i + 1) i)
      have hcase1 := MinHeap.pickMin_cases key a (2 * i + 1) i
      split
      · rename_i hne
        apply ih
        · rw [Array.size_swap]
          rcases hcase with h | h
          · omega
          · rcases hcase1 with h2 | h2
            · omega
            · exact absurd (h.trans h2).symm hne
        · refine downok_swap key a i _ hi hms ?_ hmi hc1 hc2 hok
          rcases hcase with h | h
          · exact Or.inr h
          · rcases hcase1 with h2 | h2
            · exact Or.inl (h.trans h2)
            · exact absurd (h.trans h2).symm hne
      · rename_i hne
        have heq : i = MinHeap.pickMin key a (2 * i + 2)
            (MinHeap.pickMin key a (2 * i + 1) i) := not_ne_iff.mp hne
        intro j hj0
        by_cases hpj : hparent j = i
        · rcases child_of_hparent hj0 hpj with h | h
          · rw [hpj, heq, h]
            exact hc1
          · rw [hpj, heq, h]
            exact hc2
        · exact hok.1 j hj0 hpj
    · rename_i hi
      intro j hj0
      by_cases hpj : hparent j = i
      · intro hA hB
        exfalso
        have := hparent_lt hj0
        omega
      · exact hok.1 j hj0 hpj

theorem get_set_pop_ne {α : Type} (a : Array α) (hp0 : 0 < a.pop.size)
    (y : α) (k : Nat) (hk : k < ((a.pop).set ⟨0, hp0⟩ y).size)
    (hk2 : k < a.size) (hkne : k ≠ 0) :
    ((a.pop).set ⟨0, hp0⟩ y).get ⟨k, hk⟩ = a.get ⟨k, hk2⟩ := by
  have hk3 : k < a.pop.size := by rw [Array.size_set] at hk; exact hk
  rw [Array.get_eq_getElem, Array.get_eq_getElem]
  rw [show ((a.pop).set ⟨0, hp0⟩ y)[k] = (a.pop)[k] from by
    rw [Array.getElem_set]
    split
    · rename_i hc; exact absurd hc.symm hkne
    · rfl]
  exact Array.getElem_pop a k hk3

theorem pop_heapProp {α κ : Type} [LinearOrder κ] (key : α → κ)
    (h : MinHeap α) (hp : HeapProp key h.heap) :
    HeapProp key (MinHeap.pop key h).2.heap := by
  unfold MinHeap.pop
  split
  · exact hp
  · split
    · rename_i h0 h1
      show HeapProp key h.heap.pop
      intro j hj0 hA hB
      exfalso
      rw [Array.size_pop, h1] at hB
      omega
    · rename_i h0 h1
      have hs : 0 < h.heap.size := Nat.pos_of_ne_zero h0
      have hl : h.heap.size - 1 < h.heap.size := Nat.pred_lt h0
      have hp0 : 0 < h.heap.pop.size := by
        rw [Array.size_pop]; omega
      show HeapProp key (MinHeap.siftDownAux key h.heap.size
        ((h.heap.pop).set ⟨0, hp0⟩ (h.heap.get ⟨h.heap.size - 1, hl⟩)) 0)
      apply siftDownAux_heapProp
      · rw [Array.size_set, Array.size_pop]
        omega
      · constructor
        · intro j hj0 hpj hA hB
          have hB2 : j < h.heap.size - 1 := by
            rw [Array.size_set, Array.size_pop] at hB; exact hB
          have hA2 : hparent j < h.heap.size - 1 := by
            rw [Array.size_set, Array.size_pop] at hA; exact hA
          rw [get_set_pop_ne h.heap hp0 _ (hparent j) hA (by omega) hpj,
            get_set_pop_ne h.heap hp0 _ j hB (by omega) (by omega)]
          exact hp j hj0 (by omega) (by omega)
        · intro hc
          exact absurd hc (lt_irrefl 0)

theorem pop_min {α κ : Type} [LinearOrder κ] (key : α → κ) (h : MinHeap α)
    (hp : HeapProp key h.heap) (m : α) (h2 : MinHeap α)
    (hpop : MinHeap.pop key h = (some m, h2)) :
    ∀ x ∈ h.heap.toList, key m ≤ key x := by
  have hroot := heapProp_root_min key h.heap hp
  unfold MinHeap.pop at hpop
  split at hpop
  · simp at hpop
  · rename_i h0
    have hm : m = h.heap.get ⟨0, Nat.pos_of_ne_zero h0⟩ := by
      split at hpop
      · rw [Prod.mk.injEq] at hpop
        exact (Option.some.inj hpop.1).symm
      · rw [Prod.mk.injEq] at hpop
        exact (Option.some.inj hpop.1).symm
    intro x hx
    obtain ⟨j, hj, hxe⟩ := List.mem_iff_getElem.mp hx
    have hj2 : j < h.heap.size := by
      rw [Array.length_toList] at hj; exact hj
    have hxg : x = h.heap.get ⟨j, hj2⟩ := by
      rw [← hxe, Array.get_eq_getElem]
      exact Array.getElem_toList hj2
    rw [hm, hxg]
    exact hroot j (Nat.pos_of_ne_zero h0) hj2

/-- One exercise of the heap API, as the simulator's A* open set uses it. -/
inductive HeapOp (α : Type) where
  | push (x : α) : HeapOp α
  | pop : HeapOp α

/-- Run a sequence of heap operations starting from the empty heap. -/
def runHeapOps {α κ : Type} [LinearOrder κ] (key : α → κ)
    (ops : List (HeapOp α)) : MinHeap α :=
  ops.foldl
    (fun h op =>
      match op with
      | HeapOp.push x => MinHeap.push key h x
      | HeapOp.pop => (MinHeap.pop key h).2)
    MinHeap.empty

theorem foldl_heapProp {α κ : Type} [LinearOrder κ] (key : α → κ) :
    ∀ (ops : List (HeapOp α)) (init : MinHeap α), HeapProp key init.heap →
      HeapProp key ((ops.foldl
        (fun h op =>
          match op with
          | HeapOp.push x => MinHeap.push key h x
          | HeapOp.pop => (MinHeap.pop key h).2)
        init).heap) := by
  intro ops
  induction ops with
  | nil => intro init hp; exact hp
  | cons op rest ih =>
    intro init hp
    rw [List.foldl_cons]
    apply ih
    cases op with
    | push x => exact push_heapProp key init hp x
    | pop => exact pop_heapProp key init hp

theorem runHeapOps_heapProp {α κ : Type} [LinearOrder κ] (key : α → κ)
    (ops : List (HeapOp α)) : HeapProp key (runHeapOps key ops).heap := by
  unfold runHeapOps
  apply foldl_heapProp
  intro j hj0 hA hB
  exact absurd hB (Nat.not_lt_zero j)

/-- C6: starting from the empty heap, after any sequence of `push` and `pop`
operations the backing array satisfies the binary-heap invariant (each
parent's key is at most each of its children's keys), and a non-empty `pop`
on the resulting heap returns an element of the heap that is minimal for the
key and removes exactly that element: the remaining array is a permutation
of the rest, and is itself again a binary heap. -/
theorem minheap_invariant_and_pop_min {α κ : Type} [LinearOrder κ]
    (key : α → κ) (ops : List (HeapOp α)) :
    HeapProp key (runHeapOps key ops).heap ∧
    ∀ (m : α) (h2 : MinHeap α),
      MinHeap.pop key (runHeapOps key ops) = (some m, h2) →
      m ∈ (runHeapOps key ops).heap.toList ∧
      (∀ x ∈ (runHeapOps key ops).heap.toList, key m ≤ key x) ∧
      (m :: h2.heap.toList).Perm (runHeapOps key ops).heap.toList ∧
      HeapProp key h2.heap := by
  have hp := runHeapOps_heapProp key ops
  refine ⟨hp, fun m h2 hpop => ?_⟩
  have hspec := pop_spec key _ m h2 hpop
  refine ⟨hspec.1, pop_min key _ hp m h2 hpop, hspec.2, ?_⟩
  have hrest := pop_heapProp key (runHeapOps key ops) hp
  rw [hpop] at hrest
  exact hrest

theorem minheap_invariant_and_pop_min_witness :
    MinHeap.pop (fun x : Int => x)
        (runHeapOps (fun x : Int => x)
          [HeapOp.push 5, HeapOp.push 3, HeapOp.push 4]) =
      (some 3, MinHeap.mk #[4, 5]) ∧
    ((3 : Int) ∈ (runHeapOps (fun x : Int => x)
        [HeapOp.push 5, HeapOp.push 3, HeapOp.push 4]).heap.toList ∧
      (∀ x ∈ (runHeapOps (fun x : Int => x)
          [HeapOp.push 5, HeapOp.push 3, HeapOp.push 4]).heap.toList,
        (3 : Int) ≤ x) ∧
      ((3 : Int) :: (MinHeap.mk (#[4, 5] : Array Int)).heap.toList).Perm
        (runHeapOps (fun x : Int => x)
          [HeapOp.push 5, HeapOp.push 3, HeapOp.push 4]).heap.toList ∧
      HeapProp (fun x : Int => x) (MinHeap.mk (#[4, 5] : Array Int)).heap) :=
  ⟨rfl,
    (minheap_invariant_and_pop_min (fun x : Int => x)
      [HeapOp.push 5, HeapOp.push 3, HeapOp.push 4]).2 3 ⟨#[4, 5]⟩ rfl⟩

/-- The move `expandOne` permits out of a node at cell `a` into cell `b`:
a 4-neighbor step into a traversable grid cell that strict mode does not
exclude (reserved cells other than the goal are hard-excluded only when
`strictMode` is set). -/
def stepAllowed (env : AStarEnv) (a b : CellId) : Prop :=
  (∃ off ∈ neighborOffsets, b = (a.1 + off.1, a.2 + off.2)) ∧
  (∃ ncell, gridLookup env.grid b = some ncell ∧ ncell.type.isTraversable) ∧
  ¬(env.strictMode = true ∧ env.reservedCells.contains b = true ∧
    b ≠ env.endId)

theorem expandOne_mem {env : AStarEnv} {cur : AStarNode}
    {st : MinHeap AStarNode × Visited} {off : Int × Int}
    (hoff : off ∈ neighborOffsets) {n : AStarNode}
    (hn : n ∈ (expandOne env cur st off).1.heap.toList) :
    n ∈ st.1.heap.toList ∨
    (stepAllowed env cur.pos (cur.pos.1 + off.1, cur.pos.2 + off.2) ∧
      n = AStarNode.mk (cur.pos.1 + off.1, cur.pos.2 + off.2)
        (cur.g + moveCostOf env cur (cur.pos.1 + off.1, cur.pos.2 + off.2))
        (getHeuristic (cur.pos.1 + off.1, cur.pos.2 + off.2) env.endId)
        (cur.g + moveCostOf env cur (cur.pos.1 + off.1, cur.pos.2 + off.2) +
          getHeuristic (cur.pos.1 + off.1, cur.pos.2 + off.2) env.endId)
        (some cur)) := by
  unfold expandOne at hn
  split at hn
  · exact Or.inl hn
  · rename_i ncell hnc
    split at hn
    · rename_i htrav
      split at hn
      · exact Or.inl hn
      · rename_i hstr
        split at hn
        · rename_i himp
          have hn2 : n ∈ (MinHeap.push AStarNode.f st.1
              (AStarNode.mk (cur.pos.1 + off.1, cur.pos.2 + off.2)
                (cur.g + moveCostOf env cur
                  (cur.pos.1 + off.1, cur.pos.2 + off.2))
                (getHeuristic (cur.pos.1 + off.1, cur.pos.2 + off.2) env.endId)
                (cur.g + moveCostOf env cur
                  (cur.pos.1 + off.1, cur.pos.2 + off.2) +
                  getHeuristic (cur.pos.1 + off.1, cur.pos.2 + off.2)
                    env.endId)
                (some cur))).heap.toList := hn
          rcases List.mem_cons.mp
              ((push_perm AStarNode.f st.1 _).mem_iff.mp hn2) with he | hm
          · exact Or.inr ⟨⟨⟨off, hoff, rfl⟩, ⟨ncell, hnc, htrav⟩, hstr⟩, he⟩
          · exact Or.inl hm
        · exact Or.inl hn
    · exact Or.inl hn

theorem foldl_expandOne_mem {env : AStarEnv} {cur : AStarNode} :
    ∀ (offs : List (Int × Int)), (∀ o ∈ offs, o ∈ neighborOffsets) →
    ∀ (st : MinHeap AStarNode × Visited) (n : AStarNode),
      n ∈ (offs.foldl (expandOne env cur) st).1.heap.toList →
      n ∈ st.1.heap.toList ∨
      ∃ b : CellId, stepAllowed env cur.pos b ∧
        n = AStarNode.mk b (cur.g + moveCostOf env cur b)
          (getHeuristic b env.endId)
          (cur.g + moveCostOf env cur b + getHeuristic b env.endId)
          (some cur) := by
  intro offs
  induction offs with
  | nil => intro _ st n hn; exact Or.inl hn
  | cons o rest ih =>
    intro hsub st n hn
    rw [List.foldl_cons] at hn
    rcases ih (fun x hx => hsub x (List.mem_cons_of_mem o hx)) _ n hn
      with h | h
    · rcases expandOne_mem (hsub o (List.mem_cons_self o rest)) h with h2 | h2
      · exact Or.inl h2
      · exact Or.inr ⟨_, h2.1, h2.2⟩
    · exact Or.inr h

/-- Every node the search loop ever hands to the goal test came either from
the initial open set or from a chain of `stepAllowed` expansions: any
property preserved by one expansion step holds of the successful node. -/
theorem astarLoop_inv (env : AStarEnv) (P : AStarNode → Prop)
    (hstep : ∀ (cur : AStarNode) (b : CellId), P cur →
      stepAllowed env cur.pos b →
      P (AStarNode.mk b (cur.g + moveCostOf env cur b)
        (getHeuristic b env.endId)
        (cur.g + moveCostOf env cur b + getHeuristic b env.endId)
        (some cur))) :
    ∀ (fuel : Nat) (hp : MinHeap AStarNode) (vis : Visited),
      (∀ n ∈ hp.heap.toList, P n) → ∀ p : List CellId,
      astarLoop env fuel hp vis = some p →
      ∃ n : AStarNode, P n ∧ n.pos = env.endId ∧ p = n.reconstruct := by
  intro fuel
  induction fuel with
  | zero =>
    intro hp vis hall p h
    exact Option.noConfusion h
  | succ m ih =>
    intro hp vis hall p h
    unfold astarLoop at h
    split at h
    · exact Option.noConfusion h
    · rename_i current openRest hpop
      have hspec := pop_spec AStarNode.f hp current openRest hpop
      have hcur : P current := hall current hspec.1
      have hrest : ∀ n ∈ openRest.heap.toList, P n := fun n hm =>
        hall n (hspec.2.subset (List.mem_cons_of_mem _ hm))
      split at h
      · rename_i hend
        exact ⟨current, hcur, hend, (Option.some.inj h).symm⟩
      · split at h
        · exact ih openRest vis hrest p h
        · refine ih _ _ ?_ p h
          intro n hn
          rcases foldl_expandOne_mem neighborOffsets (fun o ho => ho) _ n hn
            with h2 | h2
          · exact hrest n h2
          · obtain ⟨b, hsa, rfl⟩ := h2
            exact hstep current b hcur hsa

/-- Invariant principle for `findPathAStar`: a property of search nodes that
holds of the start node and is preserved by every permitted expansion step
holds of the node whose reconstruction is returned. -/
theorem findPathAStar_inv (fuel : Nat) (startId endId : CellId) (grid : Grid)
    (trains : List Train) (ignore : Option String) (reserved : List CellId)
    (strict : Bool) (P : AStarNode → Prop)
    (hstart : P (AStarNode.mk startId 0 (getHeuristic startId endId)
      (getHeuristic startId endId) none))
    (hstep : ∀ (cur : AStarNode) (b : CellId), P cur →
      stepAllowed (astarEnvOf endId grid trains ignore reserved strict)
        cur.pos b →
      P (AStarNode.mk b
        (cur.g + moveCostOf
          (astarEnvOf endId grid trains ignore reserved strict) cur b)
        (getHeuristic b endId)
        (cur.g + moveCostOf
          (astarEnvOf endId grid trains ignore reserved strict) cur b +
          getHeuristic b endId)
        (some cur)))
    (p : List CellId)
    (h : findPathAStar fuel startId endId grid trains ignore reserved strict =
      some p) :
    ∃ n : AStarNode, P n ∧ n.pos = endId ∧ p = n.reconstruct := by
  unfold findPathAStar at h
  split at h
  · exact Option.noConfusion h
  · refine astarLoop_inv
      (astarEnvOf endId grid trains ignore reserved strict) P hstep fuel _ _
      ?_ p h
    intro n hn
    have hperm := push_perm AStarNode.f MinHeap.empty
      (AStarNode.mk startId 0 (getHeuristic startId endId)
        (getHeuristic startId endId) none)
    have hsing : n = AStarNode.mk startId 0 (getHeuristic startId endId)
        (getHeuristic startId endId) none :=
      List.mem_singleton.mp (hperm.subset hn)
    rw [hsing]
    exact hstart

/-- C2 (counterexample to the claim as stated): in strict mode the start
cell is pushed before the reservation filter is ever consulted, so a
returned path may contain a reserved cell other than the goal, namely its
start.  On the three-cell corridor with the start cell reserved, the search
still returns the full corridor, whose first cell is reserved and is not
the goal. -/
theorem strict_reserved_start_counterexample :
    findPathAStar 100 ((0 : Int), (0 : Int)) ((2 : Int), (0 : Int))
        corridorGrid [] none [((0 : Int), (0 : Int))] true =
      some [(0, 0), (1, 0), (2, 0)] ∧
    List.contains [(((0 : Int), (0 : Int)) : CellId)] ((0 : Int), (0 : Int)) =
      true ∧
    (((0 : Int), (0 : Int)) : CellId) ≠ ((2 : Int), (0 : Int)) ∧
    (((0 : Int), (0 : Int)) : CellId) ∈
      [(((0 : Int), (0 : Int)) : CellId), (1, 0), (2, 0)] := by
  refine ⟨by decide, rfl, by decide, by decide⟩

/-- C2 (amended): for every strict-mode call that returns a path, every
path cell that belongs to the reservation set is the start or the goal
cell: reserved cells are hard-excluded from expansion, and only the start
node enters the open set without passing that filter. -/
theorem strict_path_avoids_reserved (fuel : Nat) (startId endId : CellId)
    (grid : Grid) (trains : List Train) (ignore : Option String)
    (reserved : List CellId) (p : List CellId)
    (h : findPathAStar fuel startId endId grid trains ignore reserved true =
      some p) :
    ∀ c ∈ p, reserved.contains c = true → c = startId ∨ c = endId := by
  obtain ⟨n, hP, hpos, rfl⟩ := findPathAStar_inv fuel startId endId grid
    trains ignore reserved true
    (fun n => ∀ c ∈ n.reconstruct, reserved.contains c = true →
      c = startId ∨ c = endId)
    (by
      intro c hc hres
      exact Or.inl (List.mem_singleton.mp hc))
    (by
      intro cur b hcur hsa c hc hres
      rcases List.mem_append.mp hc with h1 | h1
      · exact hcur c h1 hres
      · obtain rfl : c = b := List.mem_singleton.mp h1
        by_cases hbe : c = endId
        · exact Or.inr hbe
        · exact absurd ⟨rfl, hres, hbe⟩ hsa.2.2)
    p h
  exact hP

theorem strict_path_avoids_reserved_witness :
    (findPathAStar 100 ((0 : Int), (0 : Int)) ((2 : Int), (0 : Int))
        corridorGrid [] none [((0 : Int), (0 : Int))] true =
      some [(0, 0), (1, 0), (2, 0)]) ∧
    (∀ c ∈ [(((0 : Int), (0 : Int)) : CellId), (1, 0), (2, 0)],
      List.contains [(((0 : Int), (0 : Int)) : CellId)] c = true →
      c = ((0 : Int), (0 : Int)) ∨ c = ((2 : Int), (0 : Int))) :=
  ⟨by decide,
    strict_path_avoids_reserved 100 ((0 : Int), (0 : Int))
      ((2 : Int), (0 : Int)) corridorGrid [] none
      [((0 : Int), (0 : Int))] [(0, 0), (1, 0), (2, 0)] (by decide)⟩

/-- Reachability along the moves the search may take. -/
inductive ReachAStar (env : AStarEnv) (s : CellId) : CellId → Prop where
  | refl : ReachAStar env s s
  | step {b c : CellId} : ReachAStar env s b → stepAllowed env b c →
      ReachAStar env s c

theorem reach_in_closed (env : AStarEnv) (s : CellId) (S : CellId → Prop)
    (hs : S s) (hclosed : ∀ a b, S a → stepAllowed env a b → S b) :
    ∀ c, ReachAStar env s c → S c := by
  intro c h
  induction h with
  | refl => exact hs
  | step hr hsa ih => exact hclosed _ _ ih hsa

/-- C7: whenever the goal is not reachable from the start along the steps
the search permits under the given constraints (traversable 4-neighbor
moves, minus strict-mode hard exclusions), `findPathAStar` returns `none`,
for every fuel bound; disconnected traversable components are the special
case with no constraints. -/
theorem unreachable_implies_none (fuel : Nat) (startId endId : CellId)
    (grid : Grid) (trains : List Train) (ignore : Option String)
    (reserved : List CellId) (strict : Bool)
    (hunreach : ¬ ReachAStar
      (astarEnvOf endId grid trains ignore reserved strict) startId endId) :
    findPathAStar fuel startId endId grid trains ignore reserved strict =
      none := by
  cases hres : findPathAStar fuel startId endId grid trains ignore reserved
      strict with
  | none => rfl
  | some p =>
    exfalso
    obtain ⟨n, hP, hpos, _⟩ := findPathAStar_inv fuel startId endId grid
      trains ignore reserved strict
      (fun n => ReachAStar (astarEnvOf endId grid trains ignore reserved
        strict) startId n.pos)
      ReachAStar.refl
      (fun cur b hcur hsa => ReachAStar.step hcur hsa)
      p hres
    exact hunreach (hpos ▸ hP)

theorem unreachable_implies_none_witness :
    findPathAStar 50 ((0 : Int), (0 : Int)) ((5 : Int), (5 : Int))
      disconnectedStationsGrid [] none [] false = none := by
  apply unreachable_implies_none
  intro hreach
  have hnone : ∀ off ∈ neighborOffsets,
      gridLookup disconnectedStationsGrid
        ((0 : Int) + off.1, (0 : Int) + off.2) = none := by decide
  have h50 := reach_in_closed
    (astarEnvOf ((5 : Int), (5 : Int)) disconnectedStationsGrid [] none []
      false)
    ((0 : Int), (0 : Int))
    (fun c => c = (((0 : Int), (0 : Int)) : CellId)) rfl
    (by
      intro a b ha hsa
      obtain ⟨⟨off, hoff, hb⟩, ⟨ncell, hnc, _⟩, _⟩ := hsa
      subst ha
      subst hb
      exact Option.noConfusion ((hnone off hoff).symm.trans hnc))
    ((5 : Int), (5 : Int)) hreach
  exact absurd h50 (by decide)

theorem adjacent_of_offset (a : CellId) (off : Int × Int)
    (hoff : off ∈ neighborOffsets) :
    adjacentCells a (a.1 + off.1, a.2 + off.2) := by
  fin_cases hoff <;> (dsimp only [adjacentCells, manhattanDist]; omega)

theorem chain_length_ge_manhattan :
    ∀ (l : List CellId) (a b : CellId), l.head? = some a →
      l.getLast? = some b → List.Chain' adjacentCells l →
      manhattanDist a b + 1 ≤ l.length := by
  intro l
  induction l with
  | nil => intro a b hh _ _; exact Option.noConfusion hh
  | cons x xs ih =>
    intro a b hh hl hc
    obtain rfl : x = a := Option.some.inj hh
    cases xs with
    | nil =>
      obtain rfl : x = b := Option.some.inj hl
      have hz : manhattanDist x x = 0 := by unfold manhattanDist; omega
      simp [hz]
    | cons y ys =>
      have hadj : adjacentCells x y := (List.chain'_cons.mp hc).1
      have hc2 := (List.chain'_cons.mp hc).2
      have hl2 : (y :: ys).getLast? = some b := by
        rw [← List.getLast?_cons_cons]
        exact hl
      have hih := ih y b rfl hl2 hc2
      have htri : manhattanDist x b ≤ manhattanDist y b + 1 := by
        unfold adjacentCells at hadj
        unfold manhattanDist at hadj ⊢
        omega
      simp only [List.length_cons] at hih ⊢
      omega

/-- C1 (counterexample to the claim as stated): on the all-traversable
U-shaped five-cell grid with no trains, the returned path between the two
corridor ends has length 5, not Manhattan distance + 1 = 3: the grid being
free of obstacles as a set of cells does not make it rectangle-complete,
and the shortest route must go around the gap. -/
theorem astar_manhattan_equality_counterexample :
    findPathAStar 100 ((0 : Int), (0 : Int)) ((2 : Int), (0 : Int))
        uShapedGrid [] none [] false =
      some [(0, 0), (0, 1), (1, 1), (2, 1), (2, 0)] ∧
    (∀ c ∈ uShapedGrid, c.2.type.isTraversable) ∧
    manhattanDist ((0 : Int), (0 : Int)) ((2 : Int), (0 : Int)) + 1 = 3 ∧
    [(((0 : Int), (0 : Int)) : CellId), (0, 1), (1, 1), (2, 1),
      (2, 0)].length = 5 := by
  refine ⟨by decide, by decide, by decide, rfl⟩

/-- C1 (amended): with an empty train set and no reservations, every path
`findPathAStar` returns starts at the start cell, ends at the goal cell,
steps only between 4-adjacent cells, and has length at least Manhattan
distance + 1; equality can fail even on an all-traversable grid. -/
theorem astar_path_chain_and_length (fuel : Nat) (startId endId : CellId)
    (grid : Grid) (p : List CellId)
    (h : findPathAStar fuel startId endId grid [] none [] false = some p) :
    p.head? = some startId ∧ p.getLast? = some endId ∧
    List.Chain' adjacentCells p ∧
    manhattanDist startId endId + 1 ≤ p.length := by
  obtain ⟨n, hP, hpos, rfl⟩ := findPathAStar_inv fuel startId endId grid []
    none [] false
    (fun n => n.reconstruct.head? = some startId ∧
      n.reconstruct.getLast? = some n.pos ∧
      List.Chain' adjacentCells n.reconstruct)
    ⟨rfl, rfl, List.chain'_singleton _⟩
    (by
      intro cur b hcur hsa
      obtain ⟨hh, hl, hc⟩ := hcur
      obtain ⟨⟨off, hoff, hbe⟩, _, _⟩ := hsa
      refine ⟨?_, ?_, ?_⟩
      · show (cur.reconstruct ++ [b]).head? = some startId
        rw [List.head?_append, hh]
        rfl
      · exact List.getLast?_concat _
      · show List.Chain' adjacentCells (cur.reconstruct ++ [b])
        rw [List.chain'_append]
        refine ⟨hc, List.chain'_singleton b, ?_⟩
        intro x hx y hy
        rw [hl] at hx
        obtain rfl : cur.pos = x := Option.some.inj (Option.mem_def.mp hx)
        obtain rfl : b = y := Option.some.inj (Option.mem_def.mp hy)
        rw [hbe]
        exact adjacent_of_offset cur.pos off hoff)
    p h
  exact ⟨hP.1, hpos ▸ hP.2.1, hP.2.2,
    chain_length_ge_manhattan _ startId endId hP.1 (hpos ▸ hP.2.1) hP.2.2⟩

theorem astar_path_chain_and_length_witness :
    (findPathAStar 100 ((0 : Int), (0 : Int)) ((2 : Int), (0 : Int))
        corridorGrid [] none [] false = some [(0, 0), (1, 0), (2, 0)]) ∧
    ([(((0 : Int), (0 : Int)) : CellId), (1, 0), (2, 0)].head? =
        some ((0 : Int), (0 : Int)) ∧
      [(((0 : Int), (0 : Int)) : CellId), (1, 0), (2, 0)].getLast? =
        some ((2 : Int), (0 : Int)) ∧
      List.Chain' adjacentCells
        [(((0 : Int), (0 : Int)) : CellId), (1, 0), (2, 0)] ∧
      manhattanDist ((0 : Int), (0 : Int)) ((2 : Int), (0 : Int)) + 1 ≤
        [(((0 : Int), (0 : Int)) : CellId), (1, 0), (2, 0)].length) :=
  ⟨by decide, astar_path_chain_and_length 100 ((0 : Int), (0 : Int))
    ((2 : Int), (0 : Int)) corridorGrid [(0, 0), (1, 0), (2, 0)] (by decide)⟩
